import Mathlib

/-!
Shallow embedding of the legal-document retrieval core
(document processor, feature-vector encoder, hybrid search, RAG orchestrator)
and proofs of the specified properties.

Python strings are modelled as `List Char`; Python floats as exact rationals
(`ℚ`), with the single square root in vector normalization carried out in `ℝ`.
-/

namespace Spec2Proof

/-- Whitespace characters recognised by Python `str.strip()` / `str.split()`
(ASCII fragment: space, tab, newline, carriage return, vertical tab, form feed). -/
def isPySpace (c : Char) : Bool :=
  c = ' ' || c = '\t' || c = '\n' || c = '\r' || c = '\x0b' || c = '\x0c'

/-- Python `str.lstrip()` restricted to ASCII whitespace. -/
def pyLStrip : List Char → List Char
  | [] => []
  | c :: cs => if isPySpace c then pyLStrip cs else c :: cs

/-- Python `str.strip()`: drop leading and trailing whitespace. -/
def pyStrip (s : List Char) : List Char :=
  ((pyLStrip s.reverse).reverse : List Char) |> pyLStrip

/-- Python `str.lower()` restricted to ASCII letters. -/
def pyLowerChar (c : Char) : Char :=
  if 'A' ≤ c ∧ c ≤ 'Z' then Char.ofNat (c.toNat + 32) else c

/-- `str.lower()` over a whole string. -/
def pyLower (s : List Char) : List Char := s.map pyLowerChar

/-- Auxiliary for Python `str.split(sep)` with a two-character separator:
`acc` is the (reversed) current field. -/
def splitSeq2Aux (c1 c2 : Char) : List Char → List Char → List (List Char)
  | acc, [] => [acc.reverse]
  | acc, [c] => [(c :: acc).reverse]
  | acc, c :: c' :: rest =>
    if c = c1 ∧ c' = c2 then acc.reverse :: splitSeq2Aux c1 c2 [] rest
    else splitSeq2Aux c1 c2 (c :: acc) (c' :: rest)

/-- Python `str.split(sep)` for a two-character separator `sep = [c1, c2]`
(empty fields kept, non-overlapping left-to-right matches). -/
def splitSeq2 (c1 c2 : Char) (s : List Char) : List (List Char) :=
  splitSeq2Aux c1 c2 [] s

/-- Auxiliary for Python `str.split(sep)` with a one-character separator. -/
def splitCharAux (sep : Char) : List Char → List Char → List (List Char)
  | acc, [] => [acc.reverse]
  | acc, c :: rest =>
    if c = sep then acc.reverse :: splitCharAux sep [] rest
    else splitCharAux sep (c :: acc) rest

/-- Python `str.split(sep)` for a one-character separator (empty fields kept). -/
def splitChar (sep : Char) (s : List Char) : List (List Char) :=
  splitCharAux sep [] s

/-- Auxiliary for Python whitespace `str.split()`:
`acc` is the (reversed) current word, possibly empty. -/
def splitWsAux : List Char → List Char → List (List Char)
  | acc, [] => if acc.isEmpty then [] else [acc.reverse]
  | acc, c :: rest =>
    if isPySpace c then
      if acc.isEmpty then splitWsAux [] rest
      else acc.reverse :: splitWsAux [] rest
    else splitWsAux (c :: acc) rest

/-- Python `str.split()` with no argument: split on whitespace runs,
dropping empty fields. -/
def splitWs (s : List Char) : List (List Char) := splitWsAux [] s

/-- Python substring test `needle in haystack`. -/
def containsSeq (needle haystack : List Char) : Bool :=
  match haystack with
  | [] => needle.isEmpty
  | _ :: rest => needle.isPrefixOf haystack || containsSeq needle rest

/-- Python `str.startswith(tuple)`: true when some listed candidate starts
the string. -/
def startsWithAny (s : List Char) (cands : List (List Char)) : Bool :=
  cands.any (fun c => c.isPrefixOf s)

/-- Python `str.count(c)` for a single character. -/
def countChar (c : Char) (s : List Char) : Nat :=
  (s.filter (fun x => x = c)).length

/-! ## Document processor (`document_processor.py`) -/

/-- Inner loop of `DocumentProcessor._split_into_paragraphs` for an over-long
paragraph: accumulate `". "`-separated sentences into `current`, emitting a
stripped buffer whenever adding the next sentence would push it past 1000
characters while the buffer is nonempty; each accumulated sentence gets a
trailing `". "` re-appended. -/
def accumSentences : List (List Char) → List Char → List (List Char)
  | [], current => if current ≠ [] then [pyStrip current] else []
  | s :: rest, current =>
    if current.length + s.length > 1000 ∧ current ≠ [] then
      pyStrip current :: accumSentences rest (s ++ [('.' : Char), ' '])
    else
      accumSentences rest (current ++ s ++ [('.' : Char), ' '])

/-- `DocumentProcessor._split_into_paragraphs`: split on blank lines
(`"\n\n"`), further split paragraphs longer than 1000 characters on `". "`
via `accumSentences`, strip everything, drop empty results. -/
def split_into_paragraphs (text : List Char) : List (List Char) :=
  let paragraphs := splitSeq2 '\n' '\n' text
  let finalParagraphs :=
    (paragraphs.map (fun para =>
      if para.length > 1000 then accumSentences (splitSeq2 '.' ' ' para) []
      else [pyStrip para])).flatten
  finalParagraphs.filter (fun p => p ≠ [])

/-- `DocumentProcessor._identify_chunk_type`: ordered string heuristics over
the lower-cased, stripped text. -/
def identify_chunk_type (text : List Char) : String :=
  let tl := pyStrip (pyLower text)
  if containsSeq ("article".data) tl ∨ containsSeq ("section".data) tl ∨
      containsSeq ("clause".data) tl ∨ containsSeq ("paragraph".data) tl then
    if startsWithAny tl [("article".data), ("section".data), ("clause".data)] then
      "heading"
    else
      "clause"
  else if containsSeq ("definitions".data) tl ∨
      ("for purposes of".data).isPrefixOf tl then
    "definition"
  else if startsWithAny tl [("(a)".data), ("(b)".data), ("(1)".data), ("(2)".data),
      ("a.".data), ("b.".data), ("1.".data), ("2.".data)] then
    "list_item"
  else
    "paragraph"

/-- `DocumentPosition` (page number, paragraph index, char span). -/
structure DocumentPosition where
  page_number : Nat
  paragraph_index : Nat
  char_start : Nat
  char_end : Nat
  deriving Repr, DecidableEq

/-- `DocumentChunk`: text plus position, structural type and the metadata
fields `_process_txt` records. -/
structure DocumentChunk where
  text : List Char
  position : DocumentPosition
  chunk_type : String
  word_count : Nat
  char_count : Nat
  deriving Repr, DecidableEq

/-- Placeholder chunk used as the default of positional `List.getD`
lookups in statements (never an actual chunk). -/
def dchunk : DocumentChunk :=
  { text := []
    position := ⟨0, 0, 0, 0⟩
    chunk_type := ""
    word_count := 0
    char_count := 0 }

/-- Chunk-building loop of `DocumentProcessor._process_txt`: walk the
paragraph list keeping the enumeration index and the running character
offset; a paragraph with nonempty strip becomes a chunk spanning
`[char_offset, char_offset + len)` and advances the offset by `len + 1`
(the `+1` accounts for the newline of the full-text join rule). -/
def buildTxtChunks : List (List Char) → Nat → Nat → List DocumentChunk
  | [], _, _ => []
  | para :: rest, idx, offset =>
    if pyStrip para ≠ [] then
      { text := para
        position := { page_number := 1, paragraph_index := idx,
                      char_start := offset, char_end := offset + para.length }
        chunk_type := identify_chunk_type para
        word_count := (splitWs para).length
        char_count := para.length } ::
      buildTxtChunks rest (idx + 1) (offset + para.length + 1)
    else
      buildTxtChunks rest (idx + 1) offset

/-- Chunks `_process_txt` produces for decoded text `content`. -/
def txtChunks (content : List Char) : List DocumentChunk :=
  buildTxtChunks (split_into_paragraphs content) 0 0

/-- `ProcessedDocument` as far as `_process_txt` populates it. -/
structure ProcessedDocument where
  document_id : List Char
  title : List Char
  content : List Char
  chunks : List DocumentChunk
  file_type : String
  total_chunks : Nat
  total_paragraphs : Nat
  deriving Repr, DecidableEq

/-- Strict UTF-8 decoding of a byte sequence to code points (as Python's
`bytes.decode('utf-8')`): rejects stray continuation bytes, truncated or
overlong sequences, surrogates and values above `0x10FFFF`. -/
def utf8DecodeCore : List Nat → Option (List Nat)
  | [] => some []
  | b :: rest =>
    if b < 0x80 then (utf8DecodeCore rest).map (b :: ·)
    else if b < 0xC2 then none
    else if b < 0xE0 then
      match rest with
      | b1 :: rest1 =>
        if 0x80 ≤ b1 ∧ b1 < 0xC0 then
          (utf8DecodeCore rest1).map (((b - 0xC0) * 64 + (b1 - 0x80)) :: ·)
        else none
      | _ => none
    else if b < 0xF0 then
      match rest with
      | b1 :: b2 :: rest2 =>
        if 0x80 ≤ b1 ∧ b1 < 0xC0 ∧ 0x80 ≤ b2 ∧ b2 < 0xC0 then
          let cp := (b - 0xE0) * 4096 + (b1 - 0x80) * 64 + (b2 - 0x80)
          if 0x800 ≤ cp ∧ ¬ (0xD800 ≤ cp ∧ cp ≤ 0xDFFF) then
            (utf8DecodeCore rest2).map (cp :: ·)
          else none
        else none
      | _ => none
    else if b < 0xF5 then
      match rest with
      | b1 :: b2 :: b3 :: rest3 =>
        if 0x80 ≤ b1 ∧ b1 < 0xC0 ∧ 0x80 ≤ b2 ∧ b2 < 0xC0 ∧ 0x80 ≤ b3 ∧ b3 < 0xC0 then
          let cp := (b - 0xF0) * 262144 + (b1 - 0x80) * 4096 +
            (b2 - 0x80) * 64 + (b3 - 0x80)
          if 0x10000 ≤ cp ∧ cp ≤ 0x10FFFF then
            (utf8DecodeCore rest3).map (cp :: ·)
          else none
        else none
      | _ => none
    else none

/-- `bytes.decode('utf-8')`, producing characters. -/
def utf8Decode (bs : List Nat) : Option (List Char) :=
  (utf8DecodeCore bs).map (fun cps => cps.map Char.ofNat)

/-- `bytes.decode('latin-1')`: every byte maps to the code point of the same
value; never fails. -/
def latin1Decode (bs : List Nat) : List Char :=
  bs.map Char.ofNat

/-- The Windows-1252 mapping of the `0x80`–`0x9F` block; five bytes
(`0x81, 0x8D, 0x8F, 0x90, 0x9D`) are unmapped and make the decode fail. -/
def cp1252High (b : Nat) : Option Nat :=
  match b with
  | 0x80 => some 0x20AC | 0x82 => some 0x201A | 0x83 => some 0x0192
  | 0x84 => some 0x201E | 0x85 => some 0x2026 | 0x86 => some 0x2020
  | 0x87 => some 0x2021 | 0x88 => some 0x02C6 | 0x89 => some 0x2030
  | 0x8A => some 0x0160 | 0x8B => some 0x2039 | 0x8C => some 0x0152
  | 0x8E => some 0x017D | 0x91 => some 0x2018 | 0x92 => some 0x2019
  | 0x93 => some 0x201C | 0x94 => some 0x201D | 0x95 => some 0x2022
  | 0x96 => some 0x2013 | 0x97 => some 0x2014 | 0x98 => some 0x02DC
  | 0x99 => some 0x2122 | 0x9A => some 0x0161 | 0x9B => some 0x203A
  | 0x9C => some 0x0153 | 0x9E => some 0x017E | 0x9F => some 0x0178
  | _ => none

/-- `bytes.decode('cp1252')`. -/
def cp1252Decode (bs : List Nat) : Option (List Char) :=
  (bs.mapM (fun b =>
    if 0x80 ≤ b ∧ b ≤ 0x9F then cp1252High b else some b)).map
    (fun cps => cps.map Char.ofNat)

/-- One fallback decode attempt, by encoding name, mirroring the loop
`for encoding in ['latin-1', 'cp1252', 'iso-8859-1']` in `_process_txt`
(`iso-8859-1` is the same total mapping as `latin-1`). -/
def decodeWith (encoding : String) (bs : List Nat) : Option (List Char) :=
  if encoding = "latin-1" ∨ encoding = "iso-8859-1" then some (latin1Decode bs)
  else if encoding = "cp1252" then cp1252Decode bs
  else none

/-- First fallback encoding that decodes successfully. -/
def firstFallbackDecode (bs : List Nat) : Option (List Char) :=
  (["latin-1", "cp1252", "iso-8859-1"].filterMap (fun e => decodeWith e bs)).head?

/-- Document built by the UTF-8 branch of `_process_txt`. -/
def buildTxtDocument (content : List Char) (filename document_id : List Char) :
    ProcessedDocument :=
  { document_id := document_id
    title := filename
    content := content
    chunks := txtChunks content
    file_type := "txt"
    total_chunks := (txtChunks content).length
    total_paragraphs := (split_into_paragraphs content).length }

/-- `DocumentProcessor._process_txt`.  `Except.error` models the raised
`ValueError`; the `Option` in the success value models Python's implicit
`None`: after a fallback encoding succeeds, the code `break`s out of the
retry loop and falls off the end of the function, returning `None` instead
of a `ProcessedDocument`. -/
def process_txt (file_content : List Nat) (filename document_id : List Char) :
    Except String (Option ProcessedDocument) :=
  match utf8Decode file_content with
  | some content => Except.ok (some (buildTxtDocument content filename document_id))
  | none =>
    match firstFallbackDecode file_content with
    | some _ => Except.ok none
    | none => Except.error "Unable to decode text file"

/-- `DocumentProcessor.process_document` restricted to the dispatch on
`file_type` relevant to plain text: a `txt` file goes through
`_process_txt`; any file type outside the supported set raises
`ValueError` (a hard error with no partial result).  The `pdf` and `docx`
branches depend on external parsing libraries and are out of scope here. -/
def process_document_txt (file_content : List Nat)
    (filename document_id : List Char) (file_type : String) :
    Except String (Option ProcessedDocument) :=
  if file_type = "txt" then process_txt file_content filename document_id
  else Except.error ("Unsupported file type: " ++ file_type)

/-! ## MD5 (used by `hashlib.md5(text.encode()).hexdigest()`)

Machine words are `Nat` reduced modulo `2 ^ 32`. -/

/-- Reduce to a 32-bit word. -/
def w32 (n : Nat) : Nat := n % 4294967296

/-- 32-bit bitwise complement (operand assumed `< 2 ^ 32`). -/
def wnot (a : Nat) : Nat := 4294967295 - w32 a

/-- 32-bit left rotation. -/
def wrotl (x s : Nat) : Nat :=
  w32 ((w32 x) <<< s) ||| ((w32 x) >>> (32 - s))

/-- Per-round shift amounts of MD5. -/
def md5S : List Nat :=
  [7, 12, 17, 22, 7, 12, 17, 22, 7, 12, 17, 22, 7, 12, 17, 22,
   5, 9, 14, 20, 5, 9, 14, 20, 5, 9, 14, 20, 5, 9, 14, 20,
   4, 11, 16, 23, 4, 11, 16, 23, 4, 11, 16, 23, 4, 11, 16, 23,
   6, 10, 15, 21, 6, 10, 15, 21, 6, 10, 15, 21, 6, 10, 15, 21]

/-- Sine-derived round constants of MD5. -/
def md5K : List Nat :=
  [0xd76aa478, 0xe8c7b756, 0x242070db, 0xc1bdceee,
   0xf57c0faf, 0x4787c62a, 0xa8304613, 0xfd469501,
   0x698098d8, 0x8b44f7af, 0xffff5bb1, 0x895cd7be,
   0x6b901122, 0xfd987193, 0xa679438e, 0x49b40821,
   0xf61e2562, 0xc040b340, 0x265e5a51, 0xe9b6c7aa,
   0xd62f105d, 0x02441453, 0xd8a1e681, 0xe7d3fbc8,
   0x21e1cde6, 0xc33707d6, 0xf4d50d87, 0x455a14ed,
   0xa9e3e905, 0xfcefa3f8, 0x676f02d9, 0x8d2a4c8a,
   0xfffa3942, 0x8771f681, 0x6d9d6122, 0xfde5380c,
   0xa4beea44, 0x4bdecfa9, 0xf6bb4b60, 0xbebfbc70,
   0x289b7ec6, 0xeaa127fa, 0xd4ef3085, 0x04881d05,
   0xd9d4d039, 0xe6db99e5, 0x1fa27cf8, 0xc4ac5665,
   0xf4292244, 0x432aff97, 0xab9423a7, 0xfc93a039,
   0x655b59c3, 0x8f0ccc92, 0xffeff47d, 0x85845dd1,
   0x6fa87e4f, 0xfe2ce6e0, 0xa3014314, 0x4e0811a1,
   0xf7537e82, 0xbd3af235, 0x2ad7d2bb, 0xeb86d391]

/-- Little-endian 32-bit words of a 64-byte block. -/
def md5Words (block : List Nat) : List Nat :=
  (List.range 16).map (fun g =>
    block.getD (4 * g) 0 + block.getD (4 * g + 1) 0 * 256 +
    block.getD (4 * g + 2) 0 * 65536 + block.getD (4 * g + 3) 0 * 16777216)

/-- One MD5 round: state is `(a, b, c, d)`. -/
def md5Round (m : List Nat) (st : Nat × Nat × Nat × Nat) (i : Nat) :
    Nat × Nat × Nat × Nat :=
  let (a, b, c, d) := st
  let (f, g) :=
    if i < 16 then ((b &&& c) ||| (wnot b &&& d), i)
    else if i < 32 then ((d &&& b) ||| (wnot d &&& c), (5 * i + 1) % 16)
    else if i < 48 then (b ^^^ c ^^^ d, (3 * i + 5) % 16)
    else (c ^^^ (b ||| wnot d), (7 * i) % 16)
  let f' := w32 (f + a + md5K.getD i 0 + m.getD g 0)
  (d, w32 (b + wrotl f' (md5S.getD i 0)), b, c)

/-- Process one 64-byte block. -/
def md5Block (st : Nat × Nat × Nat × Nat) (block : List Nat) :
    Nat × Nat × Nat × Nat :=
  let m := md5Words block
  let (a, b, c, d) := st
  let (a', b', c', d') := (List.range 64).foldl (md5Round m) (a, b, c, d)
  (w32 (a + a'), w32 (b + b'), w32 (c + c'), w32 (d + d'))

/-- Split a byte list into 64-byte blocks. -/
def chunks64 : List Nat → List (List Nat)
  | [] => []
  | b :: rest => (b :: rest).take 64 :: chunks64 ((b :: rest).drop 64)
termination_by l => l.length
decreasing_by
  simp only [List.length_drop, List.length_cons]
  omega

/-- MD5 padding: `0x80`, zeros to 56 mod 64, then the bit length as a
little-endian 64-bit integer. -/
def md5Pad (msg : List Nat) : List Nat :=
  let padLen := (55 + 64 - msg.length % 64) % 64
  let bitLen := (msg.length * 8) % 18446744073709551616
  msg ++ [0x80] ++ List.replicate padLen 0 ++
    (List.range 8).map (fun i => bitLen / 256 ^ i % 256)

/-- Little-endian bytes of a 32-bit word. -/
def le4 (x : Nat) : List Nat :=
  [x % 256, x / 256 % 256, x / 65536 % 256, x / 16777216 % 256]

/-- MD5 digest (16 bytes) of a byte sequence. -/
def md5Bytes (msg : List Nat) : List Nat :=
  let init : Nat × Nat × Nat × Nat :=
    (0x67452301, 0xefcdab89, 0x98badcfe, 0x10325476)
  let (a, b, c, d) := (chunks64 (md5Pad msg)).foldl md5Block init
  le4 a ++ le4 b ++ le4 c ++ le4 d

/-- UTF-8 encoding of one code point (as in Python `str.encode()`). -/
def utf8EncodeChar (c : Char) : List Nat :=
  let n := c.toNat
  if n < 0x80 then [n]
  else if n < 0x800 then [0xC0 + n / 64, 0x80 + n % 64]
  else if n < 0x10000 then [0xE0 + n / 4096, 0x80 + n / 64 % 64, 0x80 + n % 64]
  else [0xF0 + n / 262144, 0x80 + n / 4096 % 64, 0x80 + n / 64 % 64, 0x80 + n % 64]

/-- `str.encode()` of a whole string. -/
def utf8Encode (s : List Char) : List Nat :=
  (s.map utf8EncodeChar).flatten

/-! ## Feature-vector encoder (`embedding_service.py`) -/

/-- `settings.EMBEDDING_DIMENSION` (config.py): the embedding dimension,
default 768. -/
def EMBEDDING_DIMENSION : Nat := 768

/-- `LegalEmbeddingService.legal_keywords`. -/
def legal_keywords : List (List Char) :=
  [("agreement".data), ("contract".data), ("clause".data), ("obligation".data),
   ("liability".data), ("terms".data), ("conditions".data), ("warranty".data),
   ("indemnification".data), ("breach".data), ("termination".data),
   ("confidentiality".data), ("intellectual property".data), ("damages".data),
   ("jurisdiction".data), ("governing law".data), ("force majeure".data),
   ("assignment".data), ("modification".data)]

/-- Feature block 1 of `_generate_text_embedding`: clamped text length,
word count and sentence count. -/
def lengthFeatures (text : List Char) : List ℚ :=
  [min ((text.length : ℚ) / 1000) 1,
   min (((splitWs text).length : ℚ) / 100) 1,
   min (((splitChar '.' text).length : ℚ) / 20) 1]

/-- Feature block 2: one presence flag per legal keyword. -/
def keywordFeatures (text : List Char) : List ℚ :=
  legal_keywords.map (fun k => if containsSeq k (pyLower text) then 1 else 0)

/-- Feature block 3: punctuation densities over `max(len(text), 1)`. -/
def charFeatures (text : List Char) : List ℚ :=
  [(countChar ',' (pyLower text) : ℚ) / (max text.length 1 : Nat),
   (countChar ';' (pyLower text) : ℚ) / (max text.length 1 : Nat),
   (countChar '(' (pyLower text) : ℚ) / (max text.length 1 : Nat),
   (countChar '\"' (pyLower text) : ℚ) / (max text.length 1 : Nat)]

/-- Feature block 4: average word length over the lower-cased words,
clamped, or `0` when there are no words. -/
def wordFeatures (text : List Char) : List ℚ :=
  [if splitWs (pyLower text) ≠ [] then
    min ((((splitWs (pyLower text)).map List.length).sum : ℚ) /
      ((splitWs (pyLower text)).length : ℚ) / 10) 1
   else 0]

/-- Feature block 5: the 16 MD5-digest bytes of the UTF-8 encoded text,
scaled into `[0, 1]` (hex digit pairs of the hexdigest parse back to the
digest bytes). -/
def hashFeatures (text : List Char) : List ℚ :=
  (md5Bytes (utf8Encode text)).map (fun b => ((b : Nat) : ℚ) / 255)

/-- The feature list of `_generate_text_embedding` before padding. -/
def featuresRaw (text : List Char) : List ℚ :=
  lengthFeatures text ++ keywordFeatures text ++ charFeatures text ++
    wordFeatures text ++ hashFeatures text

/-- Raw feature list of `LegalEmbeddingService._generate_text_embedding`
before normalization, zero-padded (the `while` loop) and truncated to
`EMBEDDING_DIMENSION` entries. -/
def generate_features (text : List Char) : List ℚ :=
  (featuresRaw text ++
    List.replicate (EMBEDDING_DIMENSION - (featuresRaw text).length) 0).take
    EMBEDDING_DIMENSION

/-- Sum of squares of a rational feature list. -/
def sumSq (l : List ℚ) : ℚ := (l.map (fun f => f * f)).sum

/-- `LegalEmbeddingService._generate_text_embedding`: the feature list
divided by its Euclidean magnitude when that magnitude is positive
(it always is: see `sumSq_features_pos`). -/
noncomputable def generate_text_embedding (text : List Char) : List ℝ :=
  let features := generate_features text
  if 0 < sumSq features then
    features.map (fun f => ((f : ℚ) : ℝ) / Real.sqrt ((sumSq features : ℚ) : ℝ))
  else
    features.map (fun f => ((f : ℚ) : ℝ))

/-! ## Hybrid search engine (`search_service.py`) -/

/-- A chunk row as returned by the store (`document_chunks` joined with
`documents`): the columns the merge/rerank code touches.  `id` is the row's
mandatory primary key (`result['id']`); `result.get('id')` is modelled as
`some id`, truthy exactly when the string is nonempty.  `enhanced_score`,
`keyword_rank` and `search_type` are keys only some pipelines attach, hence
`Option` (`.get` with a default). -/
structure SearchRow where
  id : String
  content : List Char
  chunk_type : String
  document_id : Option String
  document_title : List Char
  similarity_score : Option ℚ
  enhanced_score : Option ℚ
  keyword_rank : Option ℚ
  search_type : Option String
  deriving Repr, DecidableEq

/-- Stable insertion of `x` into a list sorted descending by `key`:
`x` goes before the first element whose key is not larger, so equal keys
keep their original relative order. -/
def insertDesc (key : α → ℚ) (x : α) : List α → List α
  | [] => [x]
  | y :: ys => if key y ≤ key x then x :: y :: ys else y :: insertDesc key x ys

/-- Stable descending sort by a rational key, modelling Python
`list.sort(key=..., reverse=True)` (extensionally: any stable sort). -/
def sortByDesc (key : α → ℚ) (l : List α) : List α :=
  l.foldr (insertDesc key) []

/-- Keyword match score of `_perform_keyword_search`:
`len(query_words ∩ content_words) / len(query_words)` over lower-cased
whitespace-split word sets — note: no stop-word removal happens here. -/
def matchScore (query content : List Char) : ℚ :=
  let query_words := (splitWs (pyLower query)).dedup
  let content_words := (splitWs (pyLower content)).dedup
  ((query_words.filter (fun w => w ∈ content_words)).length : ℚ) / query_words.length

/-- `_perform_keyword_search`, given the rows the store's full-text query
returned: attach the overlap score as `similarity_score` and tag the row
`keyword`.  A query with no words raises `ZeroDivisionError` on the first
row, which the surrounding `except` turns into `[]`. -/
def perform_keyword_search (query : List Char) (store_rows : List SearchRow) :
    List SearchRow :=
  if (splitWs (pyLower query)).isEmpty then []
  else
    store_rows.map (fun r =>
      { r with similarity_score := some (matchScore query r.content),
               search_type := some "keyword" })

/-- Seen-set deduplication loop of `_combine_search_results`: keep the first
occurrence of each id. -/
def dedupByIdAux : List SearchRow → List String → List SearchRow
  | [], _ => []
  | r :: rest, seen =>
    if r.id ∈ seen then dedupByIdAux rest seen
    else r :: dedupByIdAux rest (r.id :: seen)

/-- `_combine_search_results`: tag vector rows, concatenate, deduplicate by
chunk id (first occurrence wins), sort descending by similarity score. -/
def combine_search_results (vector_results keyword_results : List SearchRow) :
    List SearchRow :=
  let tagged := vector_results.map (fun r => { r with search_type := some "vector" })
  let all_results := tagged ++ keyword_results
  let unique_results := dedupByIdAux all_results []
  sortByDesc (fun r => r.similarity_score.getD 0) unique_results

/-- Query intent as produced by `_analyze_query_intent` (the fields
`_calculate_intent_boost` reads). -/
structure QueryIntent where
  type : String
  legal_concepts : List String
  deriving Repr, DecidableEq

/-- A merged result of `_combine_and_rerank_results`: the underlying row
plus the `source` tag and `combined_score` the merge writes into it. -/
structure RankedResult where
  row : SearchRow
  source : String
  combined_score : ℚ
  deriving Repr, DecidableEq

/-- `_calculate_intent_boost`: one intent-type bump (an `if`/`elif` chain),
plus `0.1` per legal concept occurring in the content, capped at `0.3`. -/
def calculate_intent_boost (result : RankedResult) (query_intent : QueryIntent) : ℚ :=
  let content := pyLower result.row.content
  let typeBoost : ℚ :=
    if query_intent.type = "definition" ∧
        containsSeq ("definition".data) (result.row.chunk_type.data) then 1/5
    else if query_intent.type = "procedure" ∧
        [("step".data), ("process".data), ("procedure".data)].any
          (fun w => containsSeq w content) then 3/20
    else if query_intent.type = "temporal" ∧
        [("date".data), ("time".data), ("period".data), ("duration".data)].any
          (fun w => containsSeq w content) then 3/20
    else 0
  let conceptBoost : ℚ :=
    ((query_intent.legal_concepts.filter
      (fun c => containsSeq c.data content)).length : ℚ) * (1/10)
  min (typeBoost + conceptBoost) (3/10)

/-- Python-dict assignment `d[k] = v` on an insertion-ordered association
list: replace in place when the key exists, else append. -/
def dictInsert (entries : List (String × RankedResult)) (k : String)
    (v : RankedResult) : List (String × RankedResult) :=
  if entries.any (fun p => p.1 = k) then
    entries.map (fun p => if p.1 = k then (k, v) else p)
  else entries ++ [(k, v)]

/-- In-place update of an existing key's value. -/
def dictUpdate (entries : List (String × RankedResult)) (k : String)
    (f : RankedResult → RankedResult) : List (String × RankedResult) :=
  entries.map (fun p => if p.1 = k then (p.1, f p.2) else p)

/-- One vector result entering the merge dict: source `vector`,
`combined_score = result.get('enhanced_score', 0.5)`. -/
def vectorEntry (r : SearchRow) : RankedResult :=
  { row := r, source := "vector", combined_score := r.enhanced_score.getD (1/2) }

/-- One keyword-only result entering the merge dict: source `keyword`,
`combined_score = result.get('keyword_rank', 0.3)` — the keyword search
never sets a `keyword_rank` key, so this is the constant default `0.3`. -/
def keywordEntry (r : SearchRow) : RankedResult :=
  { row := r, source := "keyword", combined_score := r.keyword_rank.getD (3/10) }

/-- The in-place boost applied when a keyword hit is already present from
the vector pass: `+0.2` and source `hybrid`. -/
def hybridBoost (v : RankedResult) : RankedResult :=
  { v with combined_score := v.combined_score + 1/5, source := "hybrid" }

/-- Loop body of step 1 of `_combine_and_rerank_results`; rows with a
falsy id are skipped. -/
def rerankVectorStep (entries : List (String × RankedResult)) (r : SearchRow) :
    List (String × RankedResult) :=
  if r.id ≠ "" then dictInsert entries r.id (vectorEntry r) else entries

/-- Step 1 of `_combine_and_rerank_results`: fold the vector results into
the insertion-ordered dict. -/
def rerankVectorPass (vector_results : List SearchRow) :
    List (String × RankedResult) :=
  vector_results.foldl rerankVectorStep []

/-- Loop body of step 2: a chunk already present gets the hybrid boost, a
new one is appended as a keyword entry. -/
def rerankKeywordStep (entries : List (String × RankedResult)) (r : SearchRow) :
    List (String × RankedResult) :=
  if r.id ≠ "" then
    if entries.any (fun p => p.1 = r.id) then
      dictUpdate entries r.id hybridBoost
    else entries ++ [(r.id, keywordEntry r)]
  else entries

/-- Step 2 of `_combine_and_rerank_results`: fold the keyword results in. -/
def rerankKeywordPass (entries : List (String × RankedResult))
    (keyword_results : List SearchRow) : List (String × RankedResult) :=
  keyword_results.foldl rerankKeywordStep entries

/-- `_combine_and_rerank_results`: vector pass, keyword pass, intent-based
boost clamped to 1.0, sort descending by combined score, truncate. -/
def combine_and_rerank_results (vector_results keyword_results : List SearchRow)
    (query_intent : QueryIntent) (lim : Nat) : List RankedResult :=
  let combined := rerankKeywordPass (rerankVectorPass vector_results) keyword_results
  let boosted := combined.map (fun p =>
    let b := calculate_intent_boost p.2 query_intent
    (p.1, { p.2 with combined_score := min (p.2.combined_score + b) 1 }))
  let final_results := sortByDesc (fun v => v.combined_score) (boosted.map Prod.snd)
  final_results.take lim

/-! ## Search-result cache (`search_service.py`) -/

/-- Hex digit characters (lower case, as Python `hexdigest()`). -/
def hexDigit (n : Nat) : Char :=
  if n < 10 then Char.ofNat (48 + n) else Char.ofNat (87 + n)

/-- Two hex digits of a byte. -/
def byteHex (b : Nat) : List Char := [hexDigit (b / 16), hexDigit (b % 16)]

/-- `hashlib.md5(s.encode()).hexdigest()`. -/
def md5Hex (msg : List Nat) : String :=
  String.mk ((md5Bytes msg).map byteHex).flatten

/-- The filter dictionary `advanced_semantic_search` builds for the cache
key. -/
structure SearchFilters where
  document_ids : Option (List String)
  chunk_types : Option (List String)
  user_id : Option String
  lim : Nat
  similarity_threshold : ℚ
  deriving Repr, DecidableEq

/-- JSON string escaping (backslash and quote; the repository's keys are
plain identifiers and hex strings, so control-character escapes never
arise). -/
def jsonEscape (s : List Char) : List Char :=
  (s.map (fun c =>
    if c = '\\' then [('\\' : Char), '\\']
    else if c = '\"' then [('\\' : Char), '\"']
    else [c])).flatten

/-- A JSON string literal. -/
def jsonStr (s : List Char) : String :=
  "\"" ++ String.mk (jsonEscape s) ++ "\""

/-- JSON for an optional string (`null` when absent). -/
def jsonOptStr : Option String → String
  | none => "null"
  | some s => jsonStr s.data

/-- JSON for an optional list of strings. -/
def jsonOptList : Option (List String) → String
  | none => "null"
  | some l => "[" ++ String.intercalate ", " (l.map (fun s => jsonStr s.data)) ++ "]"

/-- The serialized form of
`json.dumps({'query': ..., 'filters': sorted(filters.items())}, sort_keys=True)`:
keys sorted (`filters` before `query`), the five filter items sorted by
name (`chunk_types, document_ids, limit, similarity_threshold, user_id`).
Numbers are rendered with Lean's canonical notation instead of Python's
float `repr`; the rendering differs only in formatting and the key stays a
deterministic function of the same data. -/
def cacheStr (query : List Char) (filters : SearchFilters) : String :=
  "\x7b" ++ jsonStr ("filters".data) ++ ": [" ++
    "[" ++ jsonStr ("chunk_types".data) ++ ", " ++ jsonOptList filters.chunk_types ++ "], " ++
    "[" ++ jsonStr ("document_ids".data) ++ ", " ++ jsonOptList filters.document_ids ++ "], " ++
    "[" ++ jsonStr ("limit".data) ++ ", " ++ toString filters.lim ++ "], " ++
    "[" ++ jsonStr ("similarity_threshold".data) ++ ", " ++
      toString filters.similarity_threshold ++ "], " ++
    "[" ++ jsonStr ("user_id".data) ++ ", " ++ jsonOptStr filters.user_id ++ "]" ++
  "], " ++ jsonStr ("query".data) ++ ": " ++
  jsonStr (pyStrip (pyLower query)) ++ "\x7d"

/-- `AdvancedLegalSearchService._generate_cache_key`. -/
def generate_cache_key (query : List Char) (filters : SearchFilters) : String :=
  md5Hex (utf8Encode (cacheStr query filters).data)

/-- A cache entry: the stored payload and the store timestamp.  Time is in
seconds (`datetime.utcnow()`); the payload type is a parameter since the
cache stores whole result dictionaries opaquely. -/
structure CacheEntry (α : Type) where
  result : α
  timestamp : Nat
  deriving Repr, DecidableEq

/-- The in-process cache `self._search_cache`, as an insertion-ordered map. -/
abbrev SearchCache (α : Type) : Type := List (String × CacheEntry α)

/-- `self._cache_ttl = timedelta(minutes=30)`, in seconds. -/
def CACHE_TTL : Nat := 1800

/-- Key lookup. -/
def cacheLookup (cache : SearchCache α) (k : String) : Option (CacheEntry α) :=
  (List.find? (fun p => p.1 = k) cache).map Prod.snd

/-- Python `del d[k]`. -/
def cacheErase (cache : SearchCache α) (k : String) : SearchCache α :=
  List.filter (fun p => ¬ (p.1 = k)) cache

/-- `AdvancedLegalSearchService._get_cached_result`: a hit while the entry
is younger than the TTL returns the stored payload unchanged; an entry at
or past the TTL is deleted and the call reports a miss.  Returns the
possibly-updated cache alongside. -/
def get_cached_result (cache : SearchCache α) (k : String) (now : Nat) :
    Option α × SearchCache α :=
  match cacheLookup cache k with
  | some e =>
    if now - e.timestamp < CACHE_TTL then (some e.result, cache)
    else (none, cacheErase cache k)
  | none => (none, cache)

/-- `AdvancedLegalSearchService._cache_result`: dict assignment of the
payload with the current timestamp. -/
def cache_result (cache : SearchCache α) (k : String) (r : α) (now : Nat) :
    SearchCache α :=
  if List.any cache (fun p => p.1 = k) then
    List.map (fun p => if p.1 = k then (k, ⟨r, now⟩) else p) cache
  else cache ++ [(k, ⟨r, now⟩)]

/-- Outcome of one `advanced_semantic_search` call: the returned payload,
the cache afterwards, and whether the pipeline actually recomputed (`true`)
or served the cache (`false`). -/
structure AdvSearchOutcome (α : Type) where
  result : α
  cache : SearchCache α
  recomputed : Bool
  deriving Repr, DecidableEq

/-- The cache skeleton of `advanced_semantic_search`: compute the key from
the raw query and filter set; with caching enabled, a valid cached payload
is returned unchanged and nothing is recomputed; otherwise the pipeline
runs (its outcome is the oracle `computeResult`, covering the store and
model calls) and the payload is written through to the cache.  The search
payload is always a non-empty dict, so `if cached_result:` is `isSome`. -/
def advanced_semantic_search (computeResult : α) (query : List Char)
    (filters : SearchFilters) (enable_caching : Bool)
    (cache : SearchCache α) (now : Nat) : AdvSearchOutcome α :=
  let key := generate_cache_key query filters
  if enable_caching then
    match get_cached_result cache key now with
    | (some r, cache') => ⟨r, cache', false⟩
    | (none, cache') => ⟨computeResult, cache_result cache' key computeResult now, true⟩
  else ⟨computeResult, cache, true⟩

/-! ## RAG orchestrator (`rag_service.py`, `enhanced_rag_service.py`) -/

/-- A ranked search result as consumed by context selection and confidence
scoring (every field is read through `.get` with a default). -/
structure CtxRow where
  similarity_score : Option ℚ
  content : List Char
  document_id : Option String
  deriving Repr, DecidableEq

/-- `RAG_MAX_CHARS`: the hard character budget in `_select_best_context`
(`max_chars = 4000`). -/
def RAG_MAX_CHARS : Nat := 4000

/-- Selection loop of `LegalRAGService._select_best_context`: walk the
sorted results with the selected count and cumulative character count; a
chunk is added only when the count limit is not yet reached and adding it
keeps the total strictly below the budget; afterwards the loop breaks once
the count limit is reached — a chunk refused for the budget does NOT stop
the iteration. -/
def selectLoop (lim : Nat) : List CtxRow → Nat → Nat → List CtxRow
  | [], _, _ => []
  | r :: rest, nsel, total =>
    let chunk_chars := r.content.length
    if nsel < lim ∧ total + chunk_chars < RAG_MAX_CHARS then
      if lim ≤ nsel + 1 then [r]
      else r :: selectLoop lim rest (nsel + 1) (total + chunk_chars)
    else if lim ≤ nsel then []
    else selectLoop lim rest nsel total

/-- `LegalRAGService._select_best_context`: sort by similarity score
descending, then greedily select under the chunk-count limit and the
4000-character budget. -/
def select_best_context (search_results : List CtxRow) (lim : Nat) : List CtxRow :=
  selectLoop lim (sortByDesc (fun r => r.similarity_score.getD 0) search_results) 0 0

/-- `EnhancedLegalRAGService._calculate_confidence_score`: base `0.5`,
up to `+0.3` for chunks scoring above `0.8`, `+0.1` for a long answer,
`+0.1` for citation-like wording, `+0.1` for multiple distinct source
documents, clamped above by `1.0`. -/
def calculate_confidence_score (context_chunks : List CtxRow)
    (answer : List Char) : ℚ :=
  let high_quality :=
    (context_chunks.filter (fun c => (4 : ℚ)/5 < c.similarity_score.getD 0)).length
  let answerLower := pyLower answer
  let unique_docs := (context_chunks.map (fun c => c.document_id)).dedup.length
  let score : ℚ :=
    1/2 + min ((high_quality : ℚ) * (1/10)) (3/10) +
    (if 200 < answer.length then 1/10 else 0) +
    (if containsSeq ("document".data) answerLower ∧
        containsSeq ("section".data) answerLower then 1/10 else 0) +
    (if 1 < unique_docs then 1/10 else 0)
  min score 1

/-- The response fields of `enhanced_question_answering` the claims are
about. -/
structure EnhancedResponse where
  question : List Char
  answer : List Char
  context_used : Nat
  confidence_score : ℚ
  error : Option String
  deriving Repr, DecidableEq

/-- `EnhancedLegalRAGService._empty_answer_result`. -/
def empty_answer_result (question : List Char) (error_message : String) :
    EnhancedResponse :=
  { question := question
    answer := ("Unable to answer the question: " ++ error_message).data
    context_used := 0
    confidence_score := 0
    error := some error_message }

/-- Core control flow of `EnhancedLegalRAGService.enhanced_question_answering`:
given the results the primary search returned and the generation model's
answer text (an oracle, only consulted on the non-empty path), either
short-circuit to the structured empty answer without invoking the model, or
build the full response with the computed confidence.  The boolean records
whether the external generation model was invoked. -/
def enhanced_question_answering (question : List Char)
    (searchResults : List CtxRow) (generatedAnswer : List Char) :
    EnhancedResponse × Bool :=
  if searchResults.isEmpty then
    (empty_answer_result question "No relevant content found", false)
  else
    ({ question := question
       answer := generatedAnswer
       context_used := searchResults.length
       confidence_score := calculate_confidence_score searchResults generatedAnswer
       error := none }, true)

/-! ## Reference definitions and concrete fixtures used in statements -/

/-- The stop-word set of `_calculate_query_overlap` (the only stop-word
list in the search service). -/
def stop_words : List (List Char) :=
  [("the".data), ("and".data), ("or".data), ("but".data), ("in".data),
   ("on".data), ("at".data), ("to".data), ("for".data), ("of".data),
   ("with".data), ("by".data)]

/-- Following the spec's words for the keyword overlap score:
`|query terms ∩ content terms| / |query terms|` with terms lower-cased AND
stop-words removed.  This is the spec's formula, to be compared with the
code's `matchScore`, which removes no stop words. -/
def specOverlapScore (query content : List Char) : ℚ :=
  let qt := ((splitWs (pyLower query)).dedup).filter (fun w => ¬ w ∈ stop_words)
  let ct := ((splitWs (pyLower content)).dedup).filter (fun w => ¬ w ∈ stop_words)
  ((qt.filter (fun w => w ∈ ct)).length : ℚ) / qt.length

/-- A query intent with no intent type match and no legal concepts
(the boost of `_calculate_intent_boost` is zero for it). -/
def generalIntent : QueryIntent :=
  { type := "general", legal_concepts := [] }

/-- Concrete store row for the keyword-search fixtures. -/
def kwDemoRow : SearchRow :=
  { id := "chunk-7", content := ("the agreement".data), chunk_type := "paragraph",
    document_id := some "doc-A", document_title := ("t".data),
    similarity_score := none, enhanced_score := none, keyword_rank := none,
    search_type := none }

/-- Concrete vector-search row sharing an id with a keyword row, for the
hybrid-merge fixtures. -/
def vecDemoRow : SearchRow :=
  { id := "chunk-7", content := ("x".data), chunk_type := "clause",
    document_id := some "doc-A", document_title := ("t".data),
    similarity_score := some (3/5), enhanced_score := some (3/5),
    keyword_rank := none, search_type := none }

/-- Concrete keyword-only row for the hybrid-merge fixtures. -/
def kwOnlyDemoRow : SearchRow :=
  { id := "chunk-9", content := ("termination notice".data),
    chunk_type := "paragraph", document_id := some "doc-B",
    document_title := ("t".data), similarity_score := none,
    enhanced_score := none, keyword_rank := none, search_type := none }

/-- Context rows for the context-selection fixtures, in descending score
order: three 1200-character rows that are accepted (cumulative 3600). -/
def ctxRowA1 : CtxRow :=
  { similarity_score := some (9/10), content := List.replicate 1200 'a',
    document_id := some "d1" }

/-- Second accepted 1200-character context row. -/
def ctxRowA2 : CtxRow :=
  { similarity_score := some (8/10), content := List.replicate 1200 'b',
    document_id := some "d2" }

/-- Third accepted 1200-character context row. -/
def ctxRowA3 : CtxRow :=
  { similarity_score := some (7/10), content := List.replicate 1200 'c',
    document_id := some "d3" }

/-- 1200-character context row refused by the 4000-character budget
(3600 + 1200 ≥ 4000). -/
def ctxRowB : CtxRow :=
  { similarity_score := some (3/5), content := List.replicate 1200 'd',
    document_id := some "d4" }

/-- 300-character context row that is still added after `ctxRowB` was
refused (3600 + 300 < 4000). -/
def ctxRowC : CtxRow :=
  { similarity_score := some (1/2), content := List.replicate 300 'e',
    document_id := some "d5" }

/-- Concrete filter set for the cache fixtures. -/
def demoFilters : SearchFilters :=
  { document_ids := none, chunk_types := none, user_id := none,
    lim := 10, similarity_threshold := 7/10 }

/-! ## Helper lemmas -/

theorem pyLStrip_eq_dropWhile (l : List Char) :
    pyLStrip l = List.dropWhile isPySpace l := by
  induction l with
  | nil => rfl
  | cons c cs ih =>
    rw [pyLStrip, List.dropWhile_cons]
    cases h : isPySpace c <;> simp [h, ih]

theorem pyStrip_eq_dropWhile_rdropWhile (s : List Char) :
    pyStrip s = List.dropWhile isPySpace (List.rdropWhile isPySpace s) := by
  rw [pyStrip, List.rdropWhile]
  simp only [pyLStrip_eq_dropWhile]

theorem pyStrip_idem (s : List Char) : pyStrip (pyStrip s) = pyStrip s := by
  rw [pyStrip_eq_dropWhile_rdropWhile, pyStrip_eq_dropWhile_rdropWhile]
  have hr : List.rdropWhile isPySpace
      (List.dropWhile isPySpace (List.rdropWhile isPySpace s)) =
      List.dropWhile isPySpace (List.rdropWhile isPySpace s) := by
    rw [List.rdropWhile_eq_self_iff]
    intro hl
    obtain ⟨pre, hpre⟩ :=
      List.dropWhile_suffix (l := List.rdropWhile isPySpace s) isPySpace
    have hru : List.rdropWhile isPySpace s ≠ [] := by
      intro h0
      apply hl
      rw [h0, List.dropWhile_nil]
    have h9 : (List.rdropWhile isPySpace s).getLast? =
        (List.dropWhile isPySpace (List.rdropWhile isPySpace s)).getLast? := by
      conv_lhs => rw [← hpre]
      exact List.getLast?_append_of_ne_nil _ hl
    rw [List.getLast?_eq_getLast _ hl, List.getLast?_eq_getLast _ hru] at h9
    have h10 : (List.dropWhile isPySpace (List.rdropWhile isPySpace s)).getLast hl =
        (List.rdropWhile isPySpace s).getLast hru := (Option.some.inj h9).symm
    rw [h10]
    exact List.rdropWhile_last_not _ _ hru
  rw [hr, List.dropWhile_idempotent]

theorem accumSentences_mem (l : List (List Char)) (cur : List Char)
    (p : List Char) (hp : p ∈ accumSentences l cur) : ∃ x, p = pyStrip x := by
  induction l generalizing cur with
  | nil =>
    rw [accumSentences] at hp
    by_cases hc : cur ≠ [] <;> simp [hc] at hp
    exact ⟨cur, hp⟩
  | cons s rest ih =>
    rw [accumSentences] at hp
    by_cases hc : cur.length + s.length > 1000 ∧ cur ≠ []
    · rw [if_pos hc] at hp
      rcases List.mem_cons.mp hp with h | h
      · exact ⟨cur, h⟩
      · exact ih _ h
    · rw [if_neg hc] at hp
      exact ih _ hp

theorem split_into_paragraphs_mem (text p : List Char)
    (hp : p ∈ split_into_paragraphs text) : p ≠ [] ∧ pyStrip p = p := by
  rw [split_into_paragraphs] at hp
  simp only [List.mem_filter, decide_eq_true_eq] at hp
  obtain ⟨hmem, hne⟩ := hp
  refine ⟨hne, ?_⟩
  simp only [List.mem_flatten, List.mem_map] at hmem
  obtain ⟨chunkList, ⟨para, _hpara, hfeq⟩, hpin⟩ := hmem
  subst hfeq
  by_cases hlong : para.length > 1000
  · rw [if_pos hlong] at hpin
    obtain ⟨x, rfl⟩ := accumSentences_mem _ _ _ hpin
    exact pyStrip_idem x
  · rw [if_neg hlong] at hpin
    simp only [List.mem_singleton] at hpin
    subst hpin
    exact pyStrip_idem para

/-! ## C9: chunk-type classification of the two scenario texts -/

/-- C9 (counterexample): a chunk containing "shall terminate" mid-paragraph,
with no structural keywords, is classified `paragraph` by
`_identify_chunk_type`, not `clause` as the claim states. -/
theorem C9_counterexample :
    identify_chunk_type
      ("The agreement shall terminate upon thirty days notice.".data) ≠
      "clause" := by decide

/-- C9 (amended): "Article 5: Termination" classifies as `heading`; a chunk
containing "shall terminate" mid-paragraph with none of the structural
keywords (article/section/clause/paragraph) classifies as `paragraph` —
the keyword list does not match "shall terminate", so neither `heading` nor
`clause` applies and the default wins. -/
theorem C9_chunk_type_scenarios :
    identify_chunk_type ("Article 5: Termination".data) = "heading" ∧
    identify_chunk_type
      ("The agreement shall terminate upon thirty days notice.".data) =
      "paragraph" := by
  exact ⟨by decide, by decide⟩

/-! ## C1: character offsets of plain-text chunks -/

theorem buildTxtChunks_spec (ps : List (List Char))
    (h : ∀ p ∈ ps, pyStrip p ≠ []) :
    ∀ idx offset i, i < (buildTxtChunks ps idx offset).length →
      ((buildTxtChunks ps idx offset).getD i dchunk).position.char_end =
        ((buildTxtChunks ps idx offset).getD i dchunk).position.char_start +
          ((buildTxtChunks ps idx offset).getD i dchunk).text.length ∧
      ((buildTxtChunks ps idx offset).getD i dchunk).position.char_start =
        offset + (((buildTxtChunks ps idx offset).take i).map
          (fun c => c.text.length + 1)).sum := by
  induction ps with
  | nil => intro idx offset i hi; simp [buildTxtChunks] at hi
  | cons p rest ih =>
    intro idx offset i hi
    have hp : pyStrip p ≠ [] := h p (List.mem_cons_self p rest)
    rw [buildTxtChunks, if_pos hp] at hi ⊢
    match i with
    | 0 => simp
    | j + 1 =>
      simp only [List.getD_cons_succ, List.take_succ_cons, List.map_cons,
        List.sum_cons, List.length_cons, Nat.add_lt_add_iff_right] at hi ⊢
      have := ih (fun q hq => h q (List.mem_cons_of_mem p hq))
        (idx + 1) (offset + p.length + 1) j hi
      exact ⟨this.1, by omega⟩

/-- C1: every chunk `_process_txt` produces spans
`char_end = char_start + length(text)`, and `char_start` is the running
offset accumulated as each preceding chunk's text length plus one for the
joining newline; on `"Para one.\n\nPara two."` this gives exactly two
chunks spanning 0–9 and 10–19. -/
theorem C1_txt_chunk_offsets :
    (∀ content : List Char, ∀ i, i < (txtChunks content).length →
      ((txtChunks content).getD i dchunk).position.char_end -
          ((txtChunks content).getD i dchunk).position.char_start =
        ((txtChunks content).getD i dchunk).text.length ∧
      ((txtChunks content).getD i dchunk).position.char_start =
        (((txtChunks content).take i).map (fun c => c.text.length + 1)).sum) ∧
    (txtChunks ("Para one.\n\nPara two.".data)).map
        (fun c => (c.text.length, c.position.char_start, c.position.char_end)) =
      [(9, 0, 9), (9, 10, 19)] := by
  constructor
  · intro content i hi
    unfold txtChunks at hi ⊢
    have h := buildTxtChunks_spec (split_into_paragraphs content)
      (fun p hp => by
        have := split_into_paragraphs_mem content p hp
        rw [this.2]; exact this.1)
      0 0 i hi
    exact ⟨by omega, by simpa using h.2⟩
  · decide

/-- C1 witness: the invariant instantiated at the scenario text and chunk
index 1. -/
theorem C1_txt_chunk_offsets_witness :
    1 < (txtChunks ("Para one.\n\nPara two.".data)).length ∧
    (((txtChunks ("Para one.\n\nPara two.".data)).getD 1 dchunk).position.char_end -
        ((txtChunks ("Para one.\n\nPara two.".data)).getD 1 dchunk).position.char_start =
      ((txtChunks ("Para one.\n\nPara two.".data)).getD 1 dchunk).text.length ∧
    ((txtChunks ("Para one.\n\nPara two.".data)).getD 1 dchunk).position.char_start =
      (((txtChunks ("Para one.\n\nPara two.".data)).take 1).map
        (fun c => c.text.length + 1)).sum) :=
  ⟨by decide, C1_txt_chunk_offsets.1 ("Para one.\n\nPara two.".data) 1 (by decide)⟩

/-! ## C8: decode-fallback behaviour of `_process_txt` -/

/-- C8: the byte `0xE9` is invalid UTF-8 but decodes under the first
fallback encoding `latin-1`; the code then falls off the end of
`_process_txt` and yields no document (`Except.ok none` models Python's
implicit `None`), contradicting the claim that a processed document built
from the decoded content is returned.  A valid-UTF-8 control input does
produce a document, and an unsupported file type is a hard error. -/
theorem C8_fallback_decode_returns_no_document :
    utf8Decode [233] = none ∧
    firstFallbackDecode [233] = some [Char.ofNat 233] ∧
    process_txt [233] ("note.txt".data) ("doc-1".data) = Except.ok none ∧
    process_txt [104, 105] ("note.txt".data) ("doc-1".data) =
      Except.ok (some (buildTxtDocument ("hi".data) ("note.txt".data) ("doc-1".data))) ∧
    process_document_txt [104, 105] ("note.txt".data) ("doc-1".data) "exe" =
      Except.error "Unsupported file type: exe" := by
  exact ⟨by decide, by decide, rfl, rfl, rfl⟩

/-! ## C10: shape of the paragraph splitter's outputs -/

set_option maxRecDepth 10000

/-- C10: every paragraph-splitter output is nonempty with no leading or
trailing whitespace (stripping is a no-op on it); and a blank-line
candidate longer than 1000 characters is rebuilt from its `". "`-separated
sentences with `". "` re-appended, so such an output piece need not occur
in the original input: for 1001 copies of `'a'` the single output piece is
the input plus a gained trailing period, one character longer than the
input, hence not an infix (substring) of it. -/
theorem C10_splitter_outputs :
    (∀ text p, p ∈ split_into_paragraphs text → p ≠ [] ∧ pyStrip p = p) ∧
    split_into_paragraphs (List.replicate 1001 'a') =
      [List.replicate 1001 'a' ++ [('.' : Char)]] ∧
    ¬ List.IsInfix (List.replicate 1001 'a' ++ [('.' : Char)])
      (List.replicate 1001 'a') := by
  refine ⟨fun text p hp => split_into_paragraphs_mem text p hp, by decide, ?_⟩
  intro h
  have hlen := h.length_le
  simp only [List.length_append, List.length_replicate,
    List.length_singleton] at hlen
  omega

/-- C10 witness: the universally quantified part applied to a concrete
input and output piece. -/
theorem C10_splitter_outputs_witness :
    ("hello".data ∈ split_into_paragraphs ("hello".data)) ∧
    ("hello".data ≠ [] ∧ pyStrip ("hello".data) = "hello".data) :=
  ⟨by decide, C10_splitter_outputs.1 ("hello".data) ("hello".data) (by decide)⟩

/-! ## C2: shape and norm of the feature-vector embedding -/

theorem md5Bytes_length (msg : List Nat) : (md5Bytes msg).length = 16 := by
  unfold md5Bytes
  obtain ⟨a, b, c, d⟩ :=
    (chunks64 (md5Pad msg)).foldl md5Block
      (0x67452301, 0xefcdab89, 0x98badcfe, 0x10325476)
  simp [le4]

theorem splitCharAux_ne_nil (sep : Char) (l acc : List Char) :
    splitCharAux sep acc l ≠ [] := by
  induction l generalizing acc with
  | nil => simp [splitCharAux]
  | cons c rest ih =>
    rw [splitCharAux]
    by_cases h : c = sep
    · simp [h]
    · simp only [if_neg h]
      exact ih _

theorem splitChar_length_pos (sep : Char) (s : List Char) :
    0 < (splitChar sep s).length :=
  List.length_pos.mpr (splitCharAux_ne_nil sep s [])

theorem sumSq_nonneg (l : List ℚ) : 0 ≤ sumSq l := by
  induction l with
  | nil => simp [sumSq]
  | cons x xs ih =>
    have : sumSq (x :: xs) = x * x + sumSq xs := by simp [sumSq]
    rw [this]
    have := mul_self_nonneg x
    linarith

theorem sumSq_append (l₁ l₂ : List ℚ) : sumSq (l₁ ++ l₂) = sumSq l₁ + sumSq l₂ := by
  simp [sumSq]

theorem featuresRaw_third (text : List Char) :
    featuresRaw text =
      min ((text.length : ℚ) / 1000) 1 ::
      min (((splitWs text).length : ℚ) / 100) 1 ::
      min (((splitChar '.' text).length : ℚ) / 20) 1 ::
      (keywordFeatures text ++ charFeatures text ++ wordFeatures text ++
        hashFeatures text) := by
  simp [featuresRaw, lengthFeatures]

theorem sumSq_featuresRaw_pos (text : List Char) : 0 < sumSq (featuresRaw text) := by
  rw [featuresRaw_third]
  have h1 : sumSq (min ((text.length : ℚ) / 1000) 1 ::
      min (((splitWs text).length : ℚ) / 100) 1 ::
      min (((splitChar '.' text).length : ℚ) / 20) 1 ::
      (keywordFeatures text ++ charFeatures text ++ wordFeatures text ++
        hashFeatures text)) =
      min ((text.length : ℚ) / 1000) 1 * min ((text.length : ℚ) / 1000) 1 +
      (min (((splitWs text).length : ℚ) / 100) 1 *
        min (((splitWs text).length : ℚ) / 100) 1 +
      (min (((splitChar '.' text).length : ℚ) / 20) 1 *
        min (((splitChar '.' text).length : ℚ) / 20) 1 +
      sumSq (keywordFeatures text ++ charFeatures text ++ wordFeatures text ++
        hashFeatures text))) := by
    simp [sumSq]
  rw [h1]
  have h3 : 0 < min (((splitChar '.' text).length : ℚ) / 20) 1 := by
    apply lt_min
    · have := splitChar_length_pos '.' text
      positivity
    · exact one_pos
  have h3sq := mul_pos h3 h3
  have h1sq := mul_self_nonneg (min ((text.length : ℚ) / 1000) 1)
  have h2sq := mul_self_nonneg (min (((splitWs text).length : ℚ) / 100) 1)
  have hrest := sumSq_nonneg (keywordFeatures text ++ charFeatures text ++
    wordFeatures text ++ hashFeatures text)
  linarith

theorem featuresRaw_length_le (text : List Char) :
    (featuresRaw text).length ≤ EMBEDDING_DIMENSION := by
  have h16 := md5Bytes_length (utf8Encode text)
  simp only [featuresRaw, List.length_append, lengthFeatures, keywordFeatures,
    charFeatures, wordFeatures, hashFeatures, List.length_map, List.length_cons,
    List.length_nil, legal_keywords, h16, EMBEDDING_DIMENSION]
  omega

theorem generate_features_decomp (text : List Char) :
    generate_features text =
      featuresRaw text ++
        (List.replicate (EMBEDDING_DIMENSION - (featuresRaw text).length) 0).take
          (EMBEDDING_DIMENSION - (featuresRaw text).length) := by
  unfold generate_features
  rw [List.take_append_eq_append_take, List.take_of_length_le (featuresRaw_length_le text)]

theorem sumSq_generate_features_pos (text : List Char) :
    0 < sumSq (generate_features text) := by
  rw [generate_features_decomp, sumSq_append]
  have h1 := sumSq_featuresRaw_pos text
  have h2 := sumSq_nonneg
    ((List.replicate (EMBEDDING_DIMENSION - (featuresRaw text).length) 0).take
      (EMBEDDING_DIMENSION - (featuresRaw text).length))
  linarith

theorem generate_features_length (text : List Char) :
    (generate_features text).length = EMBEDDING_DIMENSION := by
  unfold generate_features
  simp only [List.length_take, List.length_append, List.length_replicate]
  omega

theorem sumSqR_map_div (l : List ℚ) (c : ℝ) (hc : c ≠ 0) :
    ((l.map (fun f => ((f : ℚ) : ℝ) / c)).map (fun x => x * x)).sum =
      ((sumSq l : ℚ) : ℝ) / (c * c) := by
  induction l with
  | nil => simp [sumSq]
  | cons x xs ih =>
    simp only [List.map_cons, List.sum_cons, ih]
    have hx : sumSq (x :: xs) = x * x + sumSq xs := by simp [sumSq]
    rw [hx]
    push_cast
    field_simp

theorem generate_text_embedding_length (text : List Char) :
    (generate_text_embedding text).length = EMBEDDING_DIMENSION := by
  unfold generate_text_embedding
  by_cases h : 0 < sumSq (generate_features text) <;>
    simp [h, generate_features_length]

theorem generate_text_embedding_normSq (text : List Char) :
    ((generate_text_embedding text).map (fun x => x * x)).sum = 1 := by
  unfold generate_text_embedding
  have hpos := sumSq_generate_features_pos text
  rw [if_pos hpos]
  have hS : (0 : ℝ) < ((sumSq (generate_features text) : ℚ) : ℝ) := by
    exact_mod_cast hpos
  have hsqrt : Real.sqrt ((sumSq (generate_features text) : ℚ) : ℝ) ≠ 0 :=
    ne_of_gt (Real.sqrt_pos.mpr hS)
  rw [sumSqR_map_div _ _ hsqrt, Real.mul_self_sqrt hS.le]
  field_simp

/-- C2 (amended): for every input text — the empty string included — the
encoder's output has exactly `EMBEDDING_DIMENSION` (768) entries and unit
Euclidean norm (sum of squares exactly 1 in exact arithmetic); the
magnitude is always positive because the sentence-count feature is at
least `1/20`, so the zero-vector branch is unreachable for every input. -/
theorem C2_embedding_dimension_and_norm :
    ∀ text : List Char,
      (generate_text_embedding text).length = EMBEDDING_DIMENSION ∧
      ((generate_text_embedding text).map (fun x => x * x)).sum = 1 ∧
      Real.sqrt (((generate_text_embedding text).map (fun x => x * x)).sum) = 1 :=
  fun text =>
    ⟨generate_text_embedding_length text,
     generate_text_embedding_normSq text,
     by rw [generate_text_embedding_normSq text]; exact Real.sqrt_one⟩

theorem generate_features_cons (text : List Char) :
    generate_features text =
      min ((text.length : ℚ) / 1000) 1 ::
      min (((splitWs text).length : ℚ) / 100) 1 ::
      min (((splitChar '.' text).length : ℚ) / 20) 1 ::
      ((keywordFeatures text ++ charFeatures text ++ wordFeatures text ++
          hashFeatures text) ++
        (List.replicate (EMBEDDING_DIMENSION - (featuresRaw text).length) 0).take
          (EMBEDDING_DIMENSION - (featuresRaw text).length)) := by
  rw [generate_features_decomp, featuresRaw_third]
  simp

/-- C2 (counterexample): on empty text the encoder does NOT return the zero
vector — its entry at index 2 (the sentence-count feature, `1/20` before
normalization) is nonzero, since `''.split('.')` still has one element. -/
theorem C2_counterexample_empty_text :
    generate_text_embedding [] ≠ List.replicate EMBEDDING_DIMENSION (0 : ℝ) := by
  intro h
  have hpos := sumSq_generate_features_pos []
  have hS : (0 : ℝ) < ((sumSq (generate_features []) : ℚ) : ℝ) := by
    exact_mod_cast hpos
  have hsqrt : 0 < Real.sqrt ((sumSq (generate_features []) : ℚ) : ℝ) :=
    Real.sqrt_pos.mpr hS
  have hemb : generate_text_embedding [] =
      (generate_features []).map
        (fun f => ((f : ℚ) : ℝ) /
          Real.sqrt ((sumSq (generate_features []) : ℚ) : ℝ)) := by
    unfold generate_text_embedding
    rw [if_pos hpos]
  have hq3 : min ((((splitChar '.' ([] : List Char)).length : Nat) : ℚ) / 20) 1 =
      1/20 := by
    have hsp : (splitChar '.' ([] : List Char)).length = 1 := rfl
    rw [hsp]
    norm_num
  have hgd : (generate_text_embedding []).getD 2 37 =
      (List.replicate EMBEDDING_DIMENSION (0 : ℝ)).getD 2 37 := by rw [h]
  have hrhs : (List.replicate EMBEDDING_DIMENSION (0 : ℝ)).getD 2 37 = 0 := by
    simp [List.getD_eq_getElem?_getD, List.getElem?_replicate, EMBEDDING_DIMENSION]
  have hlhs : (generate_text_embedding []).getD 2 37 =
      ((1/20 : ℚ) : ℝ) / Real.sqrt ((sumSq (generate_features []) : ℚ) : ℝ) := by
    rw [hemb, generate_features_cons]
    simp only [List.getD_eq_getElem?_getD, List.map_cons, List.getElem?_cons_succ,
      List.getElem?_cons_zero, Option.getD_some]
    rw [hq3]
  rw [hlhs, hrhs] at hgd
  have hne : ((1/20 : ℚ) : ℝ) /
      Real.sqrt ((sumSq (generate_features []) : ℚ) : ℝ) ≠ 0 := by
    apply div_ne_zero
    · norm_num
    · exact ne_of_gt hsqrt
  exact hne hgd

/-! ## C6: confidence bounds and the empty-retrieval short circuit -/

theorem calculate_confidence_score_bounds (chunks : List CtxRow)
    (answer : List Char) :
    0 ≤ calculate_confidence_score chunks answer ∧
      calculate_confidence_score chunks answer ≤ 1 := by
  unfold calculate_confidence_score
  refine ⟨le_min ?_ (by norm_num), min_le_right _ _⟩
  have h1 : (0 : ℚ) ≤ min
      (((chunks.filter (fun c => (4 : ℚ)/5 < c.similarity_score.getD 0)).length : ℚ) *
        (1/10)) (3/10) :=
    le_min (by positivity) (by norm_num)
  split_ifs <;> linarith

/-- C6: for every question, retrieval outcome and generated answer the
confidence score of the response lies in `[0, 1]`; when the primary
retrieval returns zero chunks the orchestrator returns exactly the
structured "no relevant content" answer (confidence `0.0`) and the
external generation model is never invoked. -/
theorem C6_confidence_bounds_and_empty_short_circuit :
    ∀ (question : List Char) (results : List CtxRow) (answerText : List Char),
      (0 ≤ (enhanced_question_answering question results answerText).1.confidence_score ∧
        (enhanced_question_answering question results answerText).1.confidence_score ≤ 1) ∧
      (results = [] →
        enhanced_question_answering question results answerText =
          (empty_answer_result question "No relevant content found", false)) ∧
      (empty_answer_result question "No relevant content found").confidence_score = 0 := by
  intro question results answerText
  refine ⟨?_, fun hres => ?_, rfl⟩
  · unfold enhanced_question_answering
    by_cases hres : results.isEmpty
    · rw [if_pos hres]
      simp [empty_answer_result]
    · rw [if_neg hres]
      exact calculate_confidence_score_bounds results answerText
  · unfold enhanced_question_answering
    rw [if_pos (by simp [hres])]

/-- C6 witness: the short-circuit instantiated at a concrete question with
an empty retrieval. -/
theorem C6_confidence_bounds_witness :
    ([] : List CtxRow) = [] ∧
    enhanced_question_answering ("what applies?".data) [] ("ignored".data) =
      (empty_answer_result ("what applies?".data) "No relevant content found",
        false) :=
  ⟨rfl, (C6_confidence_bounds_and_empty_short_circuit
    ("what applies?".data) [] ("ignored".data)).2.1 rfl⟩

/-! ## C7: greedy context selection under count and character budgets -/

theorem selectLoop_bounds (lim : Nat) (l : List CtxRow) :
    ∀ nsel total, total < RAG_MAX_CHARS → nsel ≤ lim →
      nsel + (selectLoop lim l nsel total).length ≤ lim ∧
      total + ((selectLoop lim l nsel total).map (fun r => r.content.length)).sum <
        RAG_MAX_CHARS := by
  induction l with
  | nil =>
    intro nsel total ht hn
    rw [selectLoop]
    simpa using ⟨hn, ht⟩
  | cons r rest ih =>
    intro nsel total ht hn
    rw [selectLoop]
    by_cases hc : nsel < lim ∧ total + r.content.length < RAG_MAX_CHARS
    · rw [if_pos hc]
      by_cases hb : lim ≤ nsel + 1
      · rw [if_pos hb]
        simp only [List.length_cons, List.length_nil, List.map_cons,
          List.map_nil, List.sum_cons, List.sum_nil]
        exact ⟨by omega, by omega⟩
      · rw [if_neg hb]
        have hrec := ih (nsel + 1) (total + r.content.length) hc.2 (by omega)
        simp only [List.length_cons, List.map_cons, List.sum_cons]
        exact ⟨by omega, by omega⟩
    · rw [if_neg hc]
      by_cases hb2 : lim ≤ nsel
      · rw [if_pos hb2]
        simpa using ⟨hn, ht⟩
      · rw [if_neg hb2]
        exact ih nsel total ht hn

theorem ctx_fixture_eval :
    select_best_context [ctxRowA1, ctxRowA2, ctxRowA3, ctxRowB, ctxRowC] 10 =
      [ctxRowA1, ctxRowA2, ctxRowA3, ctxRowC] := by
  have e0 : insertDesc (fun r => r.similarity_score.getD 0) ctxRowC [] = [ctxRowC] := by
    rw [insertDesc.eq_def]
  have e1 : insertDesc (fun r => r.similarity_score.getD 0) ctxRowB [ctxRowC] =
      [ctxRowB, ctxRowC] := by
    rw [insertDesc.eq_def]; norm_num [ctxRowB, ctxRowC]
  have e2 : insertDesc (fun r => r.similarity_score.getD 0) ctxRowA3 [ctxRowB, ctxRowC] =
      [ctxRowA3, ctxRowB, ctxRowC] := by
    rw [insertDesc.eq_def]; norm_num [ctxRowA3, ctxRowB]
  have e3 : insertDesc (fun r => r.similarity_score.getD 0) ctxRowA2
      [ctxRowA3, ctxRowB, ctxRowC] = [ctxRowA2, ctxRowA3, ctxRowB, ctxRowC] := by
    rw [insertDesc.eq_def]; norm_num [ctxRowA2, ctxRowA3]
  have e4 : insertDesc (fun r => r.similarity_score.getD 0) ctxRowA1
      [ctxRowA2, ctxRowA3, ctxRowB, ctxRowC] =
      [ctxRowA1, ctxRowA2, ctxRowA3, ctxRowB, ctxRowC] := by
    rw [insertDesc.eq_def]; norm_num [ctxRowA1, ctxRowA2]
  have hsort : sortByDesc (fun r => r.similarity_score.getD 0)
      [ctxRowA1, ctxRowA2, ctxRowA3, ctxRowB, ctxRowC] =
      [ctxRowA1, ctxRowA2, ctxRowA3, ctxRowB, ctxRowC] := by
    simp only [sortByDesc, List.foldr]
    rw [e0, e1, e2, e3, e4]
  have s5 : selectLoop 10 [] 4 3900 = [] := by rw [selectLoop.eq_def]
  have s4 : selectLoop 10 [ctxRowC] 3 3600 = [ctxRowC] := by
    rw [selectLoop.eq_def]
    norm_num [ctxRowC, RAG_MAX_CHARS, s5]
  have s3 : selectLoop 10 [ctxRowB, ctxRowC] 3 3600 = [ctxRowC] := by
    rw [selectLoop.eq_def]
    norm_num [ctxRowB, RAG_MAX_CHARS, s4]
  have s2 : selectLoop 10 [ctxRowA3, ctxRowB, ctxRowC] 2 2400 =
      ctxRowA3 :: [ctxRowC] := by
    rw [selectLoop.eq_def]
    norm_num [ctxRowA3, RAG_MAX_CHARS, s3]
  have s1 : selectLoop 10 [ctxRowA2, ctxRowA3, ctxRowB, ctxRowC] 1 1200 =
      ctxRowA2 :: ctxRowA3 :: [ctxRowC] := by
    rw [selectLoop.eq_def]
    norm_num [ctxRowA2, RAG_MAX_CHARS, s2]
  have s0 : selectLoop 10 [ctxRowA1, ctxRowA2, ctxRowA3, ctxRowB, ctxRowC] 0 0 =
      ctxRowA1 :: ctxRowA2 :: ctxRowA3 :: [ctxRowC] := by
    rw [selectLoop.eq_def]
    norm_num [ctxRowA1, RAG_MAX_CHARS, s1]
  unfold select_best_context
  rw [hsort, s0]

/-- C7 (amended): context selection iterates the results sorted by score
descending, greedily adding chunks while tracking the cumulative character
count; a chunk whose addition would reach the 4000-character budget is
skipped but iteration continues (a later, smaller chunk can still be
added — demonstrated by the 3000/2000/500 fixture, where the 2000-character
chunk is refused yet the 500-character one is selected); reaching the
chunk-count limit stops the loop.  Consequently the returned context never
exceeds the chunk-count limit and its total character count stays below
the 4000-character budget.  The fixture: 1200+1200+1200-character chunks
are accepted, the next 1200-character chunk is refused (total would reach
4800), and a later 300-character chunk is still selected. -/
theorem C7_context_selection_bounds :
    (∀ (results : List CtxRow) (lim : Nat),
      (select_best_context results lim).length ≤ lim ∧
      ((select_best_context results lim).map (fun r => r.content.length)).sum <
        RAG_MAX_CHARS) ∧
    select_best_context [ctxRowA1, ctxRowA2, ctxRowA3, ctxRowB, ctxRowC] 10 =
      [ctxRowA1, ctxRowA2, ctxRowA3, ctxRowC] := by
  constructor
  · intro results lim
    have h := selectLoop_bounds lim
      (sortByDesc (fun r => r.similarity_score.getD 0) results) 0 0
      (by norm_num [RAG_MAX_CHARS]) (Nat.zero_le lim)
    unfold select_best_context
    exact ⟨by omega, by simpa using h.2⟩
  · exact ctx_fixture_eval

/-- C7 (counterexample): under the claim's rule the iteration would stop at
the fourth chunk (3600 + 1200 exceeds the 4000-character budget), returning
only the first three; the code instead skips it and still adds the later
300-character chunk. -/
theorem C7_counterexample_skip_continues :
    select_best_context [ctxRowA1, ctxRowA2, ctxRowA3, ctxRowB, ctxRowC] 10 =
      [ctxRowA1, ctxRowA2, ctxRowA3, ctxRowC] ∧
    ctxRowB ∉ select_best_context [ctxRowA1, ctxRowA2, ctxRowA3, ctxRowB, ctxRowC] 10 := by
  refine ⟨ctx_fixture_eval, ?_⟩
  rw [ctx_fixture_eval]
  intro hmem
  simp only [List.mem_cons, List.not_mem_nil, or_false, ctxRowB, ctxRowA1,
    ctxRowA2, ctxRowA3, ctxRowC, CtxRow.mk.injEq, Option.some.injEq] at hmem
  rcases hmem with ⟨h, -⟩ | ⟨h, -⟩ | ⟨h, -⟩ | ⟨h, -⟩ <;> norm_num at h

/-! ## C5: no duplicate chunk ids in merged hybrid output -/

theorem insertDesc_perm (key : α → ℚ) (x : α) (l : List α) :
    List.Perm (insertDesc key x l) (x :: l) := by
  induction l with
  | nil => exact List.Perm.refl _
  | cons y ys ih =>
    rw [insertDesc]
    by_cases h : key y ≤ key x
    · rw [if_pos h]
    · rw [if_neg h]
      exact (ih.cons y).trans (List.Perm.swap x y ys)

theorem sortByDesc_perm (key : α → ℚ) (l : List α) :
    List.Perm (sortByDesc key l) l := by
  induction l with
  | nil => exact List.Perm.refl _
  | cons x xs ih =>
    have hstep : sortByDesc key (x :: xs) = insertDesc key x (sortByDesc key xs) := rfl
    rw [hstep]
    exact (insertDesc_perm key x _).trans (ih.cons x)

theorem dedupByIdAux_spec (l : List SearchRow) :
    ∀ seen, ((dedupByIdAux l seen).map (fun r => r.id)).Nodup ∧
      ∀ r ∈ dedupByIdAux l seen, ¬ r.id ∈ seen := by
  induction l with
  | nil => intro seen; simp [dedupByIdAux]
  | cons r rest ih =>
    intro seen
    rw [dedupByIdAux]
    by_cases h : r.id ∈ seen
    · rw [if_pos h]
      obtain ⟨hnd, hni⟩ := ih seen
      exact ⟨hnd, hni⟩
    · rw [if_neg h]
      obtain ⟨hnd, hni⟩ := ih (r.id :: seen)
      refine ⟨?_, ?_⟩
      · simp only [List.map_cons, List.nodup_cons]
        refine ⟨?_, hnd⟩
        intro hmem
        simp only [List.mem_map] at hmem
        obtain ⟨r', hr', hid⟩ := hmem
        exact (hni r' hr') (by rw [hid]; exact List.mem_cons_self _ _)
      · intro r' hr'
        rcases List.mem_cons.mp hr' with heq | hmem
        · subst heq; exact h
        · intro hs
          exact hni r' hmem (List.mem_cons_of_mem _ hs)

theorem combine_search_results_nodup (vector_results keyword_results : List SearchRow) :
    ((combine_search_results vector_results keyword_results).map
      (fun r => r.id)).Nodup := by
  unfold combine_search_results
  have hperm := sortByDesc_perm (fun r => r.similarity_score.getD 0)
    (dedupByIdAux ((vector_results.map
      (fun r => { r with search_type := some "vector" })) ++ keyword_results) [])
  have hnd := (dedupByIdAux_spec ((vector_results.map
      (fun r => { r with search_type := some "vector" })) ++ keyword_results) []).1
  exact ((hperm.map (fun r => r.id)).nodup_iff).mpr hnd

theorem dictInsert_wf (entries : List (String × RankedResult)) (kk : String)
    (vv : RankedResult)
    (h : ((entries.map Prod.fst).Nodup ∧ ∀ p ∈ entries, p.2.row.id = p.1))
    (hv : vv.row.id = kk) :
    ((dictInsert entries kk vv).map Prod.fst).Nodup ∧
      ∀ p ∈ dictInsert entries kk vv, p.2.row.id = p.1 := by
  unfold dictInsert
  by_cases hmem : entries.any (fun p => p.1 = kk)
  · rw [if_pos hmem]
    constructor
    · have hfst : (entries.map (fun p => if p.1 = kk then (kk, vv) else p)).map
          Prod.fst = entries.map Prod.fst := by
        rw [List.map_map]
        apply List.map_congr_left
        intro p _
        by_cases hpk : p.1 = kk
        · simp [hpk]
        · simp [hpk]
      rw [hfst]
      exact h.1
    · intro p hp
      simp only [List.mem_map] at hp
      obtain ⟨q, hq, hqe⟩ := hp
      by_cases hqk : q.1 = kk
      · rw [if_pos hqk] at hqe
        rw [← hqe]
        exact hv
      · rw [if_neg hqk] at hqe
        rw [← hqe]
        exact h.2 q hq
  · rw [if_neg hmem]
    constructor
    · rw [List.map_append]
      rw [List.nodup_append]
      refine ⟨h.1, by simp, ?_⟩
      intro x hx hx'
      simp only [List.map_cons, List.map_nil, List.mem_singleton] at hx'
      subst hx'
      simp only [List.any_eq_true, decide_eq_true_eq] at hmem
      simp only [List.mem_map] at hx
      obtain ⟨q, hq, hqe⟩ := hx
      exact hmem ⟨q, hq, hqe⟩
    · intro p hp
      rcases List.mem_append.mp hp with hin | hin
      · exact h.2 p hin
      · simp only [List.mem_singleton] at hin
        subst hin
        exact hv

theorem dictUpdate_wf (entries : List (String × RankedResult)) (kk : String)
    (f : RankedResult → RankedResult)
    (hrow : ∀ x, (f x).row.id = x.row.id)
    (h : ((entries.map Prod.fst).Nodup ∧ ∀ p ∈ entries, p.2.row.id = p.1)) :
    ((dictUpdate entries kk f).map Prod.fst).Nodup ∧
      ∀ p ∈ dictUpdate entries kk f, p.2.row.id = p.1 := by
  unfold dictUpdate
  constructor
  · have hfst : (entries.map (fun p => if p.1 = kk then (p.1, f p.2) else p)).map
        Prod.fst = entries.map Prod.fst := by
      rw [List.map_map]
      apply List.map_congr_left
      intro p _
      by_cases hpk : p.1 = kk
      · simp [hpk]
      · simp [hpk]
    rw [hfst]
    exact h.1
  · intro p hp
    simp only [List.mem_map] at hp
    obtain ⟨q, hq, hqe⟩ := hp
    by_cases hqk : q.1 = kk
    · rw [if_pos hqk] at hqe
      rw [← hqe]
      simp only []
      rw [hrow q.2]
      exact h.2 q hq
    · rw [if_neg hqk] at hqe
      rw [← hqe]
      exact h.2 q hq

theorem rerankVectorPass_fold_wf (v : List SearchRow) :
    ∀ acc, ((acc.map Prod.fst).Nodup ∧ ∀ p ∈ acc, p.2.row.id = p.1) →
      (((v.foldl rerankVectorStep acc).map Prod.fst).Nodup ∧
        ∀ p ∈ v.foldl rerankVectorStep acc, p.2.row.id = p.1) := by
  induction v with
  | nil => intro acc h; simpa using h
  | cons r rest ih =>
    intro acc h
    rw [List.foldl_cons]
    apply ih
    unfold rerankVectorStep
    by_cases hid : r.id ≠ ""
    · rw [if_pos hid]
      exact dictInsert_wf _ _ _ h rfl
    · rw [if_neg hid]
      exact h

theorem rerankKeywordPass_fold_wf (k : List SearchRow) :
    ∀ acc, ((acc.map Prod.fst).Nodup ∧ ∀ p ∈ acc, p.2.row.id = p.1) →
      (((k.foldl rerankKeywordStep acc).map Prod.fst).Nodup ∧
        ∀ p ∈ k.foldl rerankKeywordStep acc, p.2.row.id = p.1) := by
  induction k with
  | nil => intro acc h; simpa using h
  | cons r rest ih =>
    intro acc h
    rw [List.foldl_cons]
    apply ih
    unfold rerankKeywordStep
    by_cases hid : r.id ≠ ""
    · rw [if_pos hid]
      by_cases hmem : acc.any (fun p => p.1 = r.id)
      · rw [if_pos hmem]
        exact dictUpdate_wf _ _ _ (fun x => rfl) h
      · rw [if_neg hmem]
        constructor
        · rw [List.map_append, List.nodup_append]
          refine ⟨h.1, by simp, ?_⟩
          intro x hx hx'
          simp only [List.map_cons, List.map_nil, List.mem_singleton] at hx'
          subst hx'
          simp only [List.any_eq_true, decide_eq_true_eq] at hmem
          simp only [List.mem_map] at hx
          obtain ⟨q, hq, hqe⟩ := hx
          exact hmem ⟨q, hq, hqe⟩
        · intro p hp
          rcases List.mem_append.mp hp with hin | hin
          · exact h.2 p hin
          · simp only [List.mem_singleton] at hin
            subst hin
            rfl
    · rw [if_neg hid]
      exact h

theorem sorted_take_ids_nodup (key : RankedResult → ℚ) (lim : Nat)
    (l : List RankedResult) (h : (l.map (fun r => r.row.id)).Nodup) :
    (((sortByDesc key l).take lim).map (fun r => r.row.id)).Nodup := by
  rw [List.map_take]
  apply List.Nodup.sublist (List.take_sublist _ _)
  exact (((sortByDesc_perm key l).map (fun r => r.row.id)).nodup_iff).mpr h

theorem boosted_ids (L : List (String × RankedResult)) (qi : QueryIntent)
    (h2 : ∀ p ∈ L, p.2.row.id = p.1) :
    (((L.map (fun p =>
      let b := calculate_intent_boost p.2 qi
      (p.1, { p.2 with combined_score := min (p.2.combined_score + b) 1 }))).map
        Prod.snd).map (fun r => r.row.id)) = L.map Prod.fst := by
  rw [List.map_map, List.map_map]
  apply List.map_congr_left
  intro p hp
  exact h2 p hp

theorem combine_and_rerank_results_nodup (vector_results keyword_results : List SearchRow)
    (query_intent : QueryIntent) (lim : Nat) :
    ((combine_and_rerank_results vector_results keyword_results query_intent lim).map
      (fun r => r.row.id)).Nodup := by
  have hwf : (((rerankKeywordPass (rerankVectorPass vector_results)
      keyword_results).map Prod.fst).Nodup ∧
      ∀ p ∈ rerankKeywordPass (rerankVectorPass vector_results) keyword_results,
        p.2.row.id = p.1) := by
    apply rerankKeywordPass_fold_wf
    apply rerankVectorPass_fold_wf
    simp
  unfold combine_and_rerank_results
  apply sorted_take_ids_nodup
  rw [boosted_ids _ query_intent hwf.2]
  exact hwf.1

/-- C5: neither merge path ever emits two results with the same chunk id —
`_combine_search_results` deduplicates through the seen-id set, and
`_combine_and_rerank_results` merges through an id-keyed dictionary, whose
key uniqueness survives the boost, the sort and the truncation. -/
theorem C5_no_duplicate_chunk_ids :
    (∀ vector_results keyword_results : List SearchRow,
      ((combine_search_results vector_results keyword_results).map
        (fun r => r.id)).Nodup) ∧
    (∀ (vector_results keyword_results : List SearchRow)
      (query_intent : QueryIntent) (lim : Nat),
      ((combine_and_rerank_results vector_results keyword_results query_intent
        lim).map (fun r => r.row.id)).Nodup) :=
  ⟨combine_search_results_nodup, combine_and_rerank_results_nodup⟩

/-! ## C4: TTL cache semantics of `advanced_semantic_search` -/

theorem cacheFind_of_lookup_none {α : Type} (cache : SearchCache α) (k : String)
    (h : cacheLookup cache k = none) :
    List.find? (fun p => p.1 = k) cache = none := by
  unfold cacheLookup at h
  exact Option.map_eq_none'.mp h

theorem cacheLookup_append_of_none {α : Type} (c1 c2 : SearchCache α) (k : String)
    (h : cacheLookup c1 k = none) :
    cacheLookup (c1 ++ c2) k = cacheLookup c2 k := by
  unfold cacheLookup
  rw [List.find?_append, cacheFind_of_lookup_none c1 k h]
  simp

theorem cacheErase_append {α : Type} (c1 c2 : SearchCache α) (k : String) :
    cacheErase (c1 ++ c2) k = cacheErase c1 k ++ cacheErase c2 k := by
  unfold cacheErase
  exact List.filter_append _ _

theorem cacheAny_of_lookup_none {α : Type} (cache : SearchCache α) (k : String)
    (h : cacheLookup cache k = none) :
    cache.any (fun p => p.1 = k) = false := by
  have hall := List.find?_eq_none.mp (cacheFind_of_lookup_none cache k h)
  simp only [List.any_eq_false, decide_eq_true_eq]
  intro p hp
  have := hall p hp
  simpa using this

theorem cacheErase_of_lookup_none {α : Type} (cache : SearchCache α) (k : String)
    (h : cacheLookup cache k = none) :
    cacheErase cache k = cache := by
  have hall := List.find?_eq_none.mp (cacheFind_of_lookup_none cache k h)
  unfold cacheErase
  apply List.filter_eq_self.mpr
  intro p hp
  have := hall p hp
  simpa using this

theorem cache_result_of_lookup_none {α : Type} (cache : SearchCache α) (k : String)
    (r : α) (now : Nat) (h : cacheLookup cache k = none) :
    cache_result cache k r now = cache ++ [(k, ⟨r, now⟩)] := by
  unfold cache_result
  rw [if_neg]
  simp [cacheAny_of_lookup_none cache k h]

theorem cacheLookup_singleton {α : Type} (k : String) (e : CacheEntry α) :
    cacheLookup [(k, e)] k = some e := by
  simp [cacheLookup, List.find?]

/-- C4: with caching enabled, a first call on an uncached key computes the
pipeline and stores the payload; a second call with the same query and
filter set strictly within the 30-minute TTL returns exactly the stored
payload, recomputes nothing and leaves the cache unchanged; a lookup at or
past the TTL evicts the stale entry and recomputes, leaving only a fresh
entry for the key. -/
theorem C4_cache_ttl_semantics :
    ∀ {α : Type} (compute1 compute2 : α) (query : List Char)
      (filters : SearchFilters) (cache0 : SearchCache α) (t0 t1 : Nat),
      cacheLookup cache0 (generate_cache_key query filters) = none →
      (advanced_semantic_search compute1 query filters true cache0 t0 =
        ⟨compute1,
          cache0 ++ [(generate_cache_key query filters, ⟨compute1, t0⟩)], true⟩) ∧
      (t1 - t0 < CACHE_TTL →
        advanced_semantic_search compute2 query filters true
            (advanced_semantic_search compute1 query filters true cache0 t0).cache t1 =
          ⟨compute1,
            (advanced_semantic_search compute1 query filters true cache0 t0).cache,
            false⟩) ∧
      (CACHE_TTL ≤ t1 - t0 →
        advanced_semantic_search compute2 query filters true
            (advanced_semantic_search compute1 query filters true cache0 t0).cache t1 =
          ⟨compute2,
            cache0 ++ [(generate_cache_key query filters, ⟨compute2, t1⟩)], true⟩) := by
  intro α compute1 compute2 query filters cache0 t0 t1 h
  have h1 : advanced_semantic_search compute1 query filters true cache0 t0 =
      ⟨compute1, cache0 ++ [(generate_cache_key query filters, ⟨compute1, t0⟩)],
        true⟩ := by
    unfold advanced_semantic_search get_cached_result
    simp [h, cache_result_of_lookup_none cache0 _ compute1 t0 h]
  have hlk2 : cacheLookup
      (cache0 ++ [(generate_cache_key query filters,
        (⟨compute1, t0⟩ : CacheEntry α))]) (generate_cache_key query filters) =
      some ⟨compute1, t0⟩ := by
    rw [cacheLookup_append_of_none cache0 _ _ h, cacheLookup_singleton]
  have herase : cacheErase
      (cache0 ++ [(generate_cache_key query filters,
        (⟨compute1, t0⟩ : CacheEntry α))]) (generate_cache_key query filters) =
      cache0 := by
    rw [cacheErase_append, cacheErase_of_lookup_none cache0 _ h]
    simp [cacheErase]
  refine ⟨h1, fun hlt => ?_, fun hge => ?_⟩
  · rw [h1]
    unfold advanced_semantic_search get_cached_result
    simp [hlk2, hlt]
  · rw [h1]
    unfold advanced_semantic_search get_cached_result
    have hnlt : ¬ (t1 - t0 < CACHE_TTL) := by omega
    simp [hlk2, hnlt, herase, cache_result_of_lookup_none cache0 _ compute2 t1 h]

/-- C4 witness: the theorem instantiated with a `Nat` payload, the scenario
query, an empty initial cache and a second call 60 seconds later (within
the TTL). -/
theorem C4_cache_ttl_semantics_witness :
    cacheLookup ([] : SearchCache Nat)
      (generate_cache_key ("termination clause".data) demoFilters) = none ∧
    (60 : Nat) - 0 < CACHE_TTL ∧
    advanced_semantic_search 2 ("termination clause".data) demoFilters true
        (advanced_semantic_search 1 ("termination clause".data) demoFilters true
          [] 0).cache 60 =
      ⟨1,
        (advanced_semantic_search 1 ("termination clause".data) demoFilters true
          [] 0).cache,
        false⟩ :=
  ⟨rfl, by norm_num [CACHE_TTL],
    (C4_cache_ttl_semantics 1 2 ("termination clause".data) demoFilters [] 0 60
      rfl).2.1 (by norm_num [CACHE_TTL])⟩

/-! ## C3: scores assigned by the hybrid merge -/

theorem dictInsert_of_not_mem (entries : List (String × RankedResult)) (kk : String)
    (vv : RankedResult) (h : entries.any (fun p => p.1 = kk) = false) :
    dictInsert entries kk vv = entries ++ [(kk, vv)] := by
  unfold dictInsert
  rw [if_neg]
  simp [h]

theorem rerankVectorPass_fold_eq (v : List SearchRow) :
    ∀ acc, (v.map (fun r => r.id)).Nodup →
      (∀ p ∈ acc, ∀ r ∈ v, r.id ≠ "" → p.1 ≠ r.id) →
      v.foldl rerankVectorStep acc =
        acc ++ (v.filter (fun r => r.id ≠ "")).map (fun r => (r.id, vectorEntry r)) := by
  induction v with
  | nil => intro acc _ _; simp
  | cons r rest ih =>
    intro acc hnd hdisj
    rw [List.foldl_cons]
    by_cases hid : r.id ≠ ""
    · have hany : acc.any (fun p => p.1 = r.id) = false := by
        simp only [List.any_eq_false, decide_eq_true_eq]
        intro p hp
        exact hdisj p hp r (List.mem_cons_self _ _) hid
      have hstep : rerankVectorStep acc r = acc ++ [(r.id, vectorEntry r)] := by
        unfold rerankVectorStep
        rw [if_pos hid, dictInsert_of_not_mem _ _ _ hany]
      rw [hstep]
      have hnd' : (rest.map (fun r => r.id)).Nodup := by
        simp only [List.map_cons, List.nodup_cons] at hnd
        exact hnd.2
      have hnotin : ¬ r.id ∈ rest.map (fun r => r.id) := by
        simp only [List.map_cons, List.nodup_cons] at hnd
        exact hnd.1
      have hdisj' : ∀ p ∈ acc ++ [(r.id, vectorEntry r)], ∀ r' ∈ rest,
          r'.id ≠ "" → p.1 ≠ r'.id := by
        intro p hp r' hr' hid'
        rcases List.mem_append.mp hp with hin | hin
        · exact hdisj p hin r' (List.mem_cons_of_mem _ hr') hid'
        · simp only [List.mem_singleton] at hin
          subst hin
          intro heq
          apply hnotin
          have : r.id = r'.id := heq
          rw [this]
          exact List.mem_map_of_mem (fun r => r.id) hr'
      rw [ih _ hnd' hdisj']
      rw [List.filter_cons_of_pos (by simpa using hid), List.map_cons,
        List.append_assoc]
      rfl
    · have hstep : rerankVectorStep acc r = acc := by
        unfold rerankVectorStep
        rw [if_neg hid]
      rw [hstep]
      have hnd' : (rest.map (fun r => r.id)).Nodup := by
        simp only [List.map_cons, List.nodup_cons] at hnd
        exact hnd.2
      have hdisj' : ∀ p ∈ acc, ∀ r' ∈ rest, r'.id ≠ "" → p.1 ≠ r'.id :=
        fun p hp r' hr' => hdisj p hp r' (List.mem_cons_of_mem _ hr')
      rw [ih _ hnd' hdisj']
      rw [List.filter_cons_of_neg (by simpa using hid)]

theorem rerankVectorPass_eq (v : List SearchRow)
    (hnd : (v.map (fun r => r.id)).Nodup) :
    rerankVectorPass v =
      (v.filter (fun r => r.id ≠ "")).map (fun r => (r.id, vectorEntry r)) := by
  unfold rerankVectorPass
  rw [rerankVectorPass_fold_eq v [] hnd (by simp)]
  rfl

theorem dictUpdate_any (entries : List (String × RankedResult)) (kk x : String)
    (f : RankedResult → RankedResult) :
    (dictUpdate entries kk f).any (fun p => p.1 = x) =
      entries.any (fun p => p.1 = x) := by
  unfold dictUpdate
  induction entries with
  | nil => rfl
  | cons p ps ih =>
    simp only [List.map_cons, List.any_cons, ih]
    by_cases hp : p.1 = kk
    · simp [hp]
    · simp [hp]

theorem if_upd_congr (r : SearchRow) (rest : List SearchRow)
    (p : String × RankedResult) (hne : ¬ (p.1 = r.id ∧ r.id ≠ "")) :
    (if p.1 ≠ "" ∧ p.1 ∈ (r :: rest).map (fun r => r.id) then
      (p.1, hybridBoost p.2) else p) =
    (if p.1 ≠ "" ∧ p.1 ∈ rest.map (fun r => r.id) then
      (p.1, hybridBoost p.2) else p) := by
  by_cases hcond : p.1 ≠ "" ∧ p.1 ∈ rest.map (fun r => r.id)
  · rw [if_pos hcond, if_pos ⟨hcond.1,
      by rw [List.map_cons]; exact List.mem_cons_of_mem _ hcond.2⟩]
  · rw [if_neg hcond, if_neg ?_]
    intro hcon
    apply hcond
    refine ⟨hcon.1, ?_⟩
    have hcon2 : p.1 ∈ r.id :: rest.map (fun r => r.id) := by
      simpa only [List.map_cons] using hcon.2
    rcases List.mem_cons.mp hcon2 with heq | hin
    · exact absurd ⟨heq, fun h0 => hcon.1 (heq.trans h0)⟩ hne
    · exact hin

theorem rerankKeywordPass_fold_eq (k : List SearchRow) :
    ∀ entries, (k.map (fun r => r.id)).Nodup →
      k.foldl rerankKeywordStep entries =
        entries.map (fun p =>
          if p.1 ≠ "" ∧ p.1 ∈ k.map (fun r => r.id) then (p.1, hybridBoost p.2)
          else p) ++
        (k.filter (fun r => r.id ≠ "" ∧
            entries.any (fun p => p.1 = r.id) = false)).map
          (fun r => (r.id, keywordEntry r)) := by
  induction k with
  | nil =>
    intro entries _
    simp
  | cons r rest ih =>
    intro entries hnd
    have hnd' : (rest.map (fun r => r.id)).Nodup := by
      simp only [List.map_cons, List.nodup_cons] at hnd
      exact hnd.2
    have hnotin : ¬ r.id ∈ rest.map (fun r => r.id) := by
      simp only [List.map_cons, List.nodup_cons] at hnd
      exact hnd.1
    rw [List.foldl_cons]
    by_cases hid : r.id ≠ ""
    · by_cases hmem : entries.any (fun p => p.1 = r.id)
      · have hstep : rerankKeywordStep entries r =
            dictUpdate entries r.id hybridBoost := by
          unfold rerankKeywordStep
          rw [if_pos hid, if_pos hmem]
        rw [hstep, ih _ hnd']
        congr 1
        · unfold dictUpdate
          rw [List.map_map]
          apply List.map_congr_left
          intro p hp
          simp only [Function.comp_apply]
          by_cases hpk : p.1 = r.id
          · rw [if_pos hpk]
            rw [if_neg (fun hcon => hnotin (by rw [← hpk]; exact hcon.2)),
              if_pos ⟨by rw [hpk]; exact hid,
                by rw [List.map_cons, hpk]; exact List.mem_cons_self _ _⟩]
          · rw [if_neg hpk]
            exact (if_upd_congr r rest p (fun hc => hpk hc.1)).symm
        · rw [List.filter_cons_of_neg (by simp [hmem, hid]),
            List.filter_congr]
          intro r' hr'
          simp only [decide_eq_decide]
          constructor
          · rintro ⟨h1, h2⟩
            exact ⟨h1, by rwa [dictUpdate_any] at h2⟩
          · rintro ⟨h1, h2⟩
            exact ⟨h1, by rwa [dictUpdate_any]⟩
      · have hstep : rerankKeywordStep entries r =
            entries ++ [(r.id, keywordEntry r)] := by
          unfold rerankKeywordStep
          rw [if_pos hid, if_neg hmem]
        rw [hstep, ih _ hnd']
        have hmap : (entries ++ [(r.id, keywordEntry r)]).map (fun p =>
            if p.1 ≠ "" ∧ p.1 ∈ rest.map (fun r => r.id) then (p.1, hybridBoost p.2)
            else p) =
            entries.map (fun p =>
              if p.1 ≠ "" ∧ p.1 ∈ (r :: rest).map (fun r => r.id) then
                (p.1, hybridBoost p.2) else p) ++ [(r.id, keywordEntry r)] := by
          rw [List.map_append]
          congr 1
          · apply List.map_congr_left
            intro p hp
            have hpne : ¬ p.1 = r.id := by
              intro hpk
              simp only [List.any_eq_true, decide_eq_true_eq] at hmem
              exact hmem ⟨p, hp, hpk⟩
            exact (if_upd_congr r rest p (fun hc => hpne hc.1)).symm
          · simp only [List.map_cons, List.map_nil, List.cons.injEq, and_true]
            rw [if_neg (fun hcon => hnotin hcon.2)]
        rw [hmap]
        have hfilt : rest.filter (fun r' => r'.id ≠ "" ∧
            ((entries ++ [(r.id, keywordEntry r)]).any
              (fun p => p.1 = r'.id)) = false) =
            rest.filter (fun r' => r'.id ≠ "" ∧
              (entries.any (fun p => p.1 = r'.id)) = false) := by
          apply List.filter_congr
          intro r' hr'
          simp only [decide_eq_decide, List.any_append, List.any_cons,
            List.any_nil, Bool.or_eq_false_iff]
          constructor
          · rintro ⟨h1, h2, -⟩
            exact ⟨h1, h2⟩
          · rintro ⟨h1, h2⟩
            refine ⟨h1, h2, ?_⟩
            have hne : ¬ r.id = r'.id := by
              intro heq
              apply hnotin
              rw [heq]
              exact List.mem_map_of_mem (fun r => r.id) hr'
            simp [hne]
        rw [hfilt]
        rw [List.filter_cons_of_pos (by simp [hid, hmem]), List.map_cons,
          List.append_assoc]
        rfl
    · have hstep : rerankKeywordStep entries r = entries := by
        unfold rerankKeywordStep
        rw [if_neg hid]
      rw [hstep, ih _ hnd']
      congr 1
      · apply List.map_congr_left
        intro p hp
        exact (if_upd_congr r rest p (fun hc => hid hc.2)).symm
      · rw [List.filter_cons_of_neg (by simp [hid])]

theorem rerankKeywordPass_eq (entries : List (String × RankedResult))
    (k : List SearchRow) (hnd : (k.map (fun r => r.id)).Nodup) :
    rerankKeywordPass entries k =
      entries.map (fun p =>
        if p.1 ≠ "" ∧ p.1 ∈ k.map (fun r => r.id) then (p.1, hybridBoost p.2)
        else p) ++
      (k.filter (fun r => r.id ≠ "" ∧
          entries.any (fun p => p.1 = r.id) = false)).map
        (fun r => (r.id, keywordEntry r)) :=
  rerankKeywordPass_fold_eq k entries hnd

/-- C3 (amended): in the hybrid merge of `_combine_and_rerank_results`,
over result lists with unique truthy chunk ids, a chunk found by BOTH
searches is present as the vector row marked `hybrid` with score
`enhanced_score (default 0.5) + 0.2`; a chunk found ONLY by the keyword
search (whose rows never carry a `keyword_rank` key) is present marked
`keyword` with the constant default score `0.3` — its overlap-derived
`similarity_score` (computed without stop-word removal) is NOT kept. -/
theorem C3_hybrid_merge_scores :
    ∀ (vector_results keyword_results : List SearchRow),
      (vector_results.map (fun r => r.id)).Nodup →
      (keyword_results.map (fun r => r.id)).Nodup →
      (∀ rv ∈ vector_results, ∀ rk ∈ keyword_results, rv.id = rk.id → rv.id ≠ "" →
        (rv.id, (⟨rv, "hybrid", rv.enhanced_score.getD (1/2) + 1/5⟩ : RankedResult)) ∈
          rerankKeywordPass (rerankVectorPass vector_results) keyword_results) ∧
      (∀ rk ∈ keyword_results, rk.id ≠ "" → rk.keyword_rank = none →
        (∀ rv ∈ vector_results, rv.id ≠ rk.id) →
        (rk.id, (⟨rk, "keyword", 3/10⟩ : RankedResult)) ∈
          rerankKeywordPass (rerankVectorPass vector_results) keyword_results) := by
  intro vector_results keyword_results hndv hndk
  rw [rerankKeywordPass_eq _ _ hndk, rerankVectorPass_eq _ hndv]
  constructor
  · intro rv hrv rk hrk hideq hidne
    apply List.mem_append_left
    have hmemv : (rv.id, vectorEntry rv) ∈
        (vector_results.filter (fun r => r.id ≠ "")).map
          (fun r => (r.id, vectorEntry r)) :=
      List.mem_map_of_mem _ (List.mem_filter.mpr ⟨hrv, by simpa using hidne⟩)
    have himg := List.mem_map_of_mem (fun p =>
      if p.1 ≠ "" ∧ p.1 ∈ keyword_results.map (fun r => r.id) then
        (p.1, hybridBoost p.2) else p) hmemv
    have hval : (fun p =>
        if p.1 ≠ "" ∧ p.1 ∈ keyword_results.map (fun r => r.id) then
          (p.1, hybridBoost p.2) else p) (rv.id, vectorEntry rv) =
        (rv.id, hybridBoost (vectorEntry rv)) :=
      if_pos ⟨hidne, by rw [hideq]; exact List.mem_map_of_mem _ hrk⟩
    rw [hval] at himg
    exact himg
  · intro rk hrk hidne hkr hnov
    apply List.mem_append_right
    have hany : ((vector_results.filter (fun r => r.id ≠ "")).map
        (fun r => (r.id, vectorEntry r))).any (fun p => p.1 = rk.id) = false := by
      simp only [List.any_eq_false, decide_eq_true_eq]
      intro p hp
      simp only [List.mem_map, List.mem_filter] at hp
      obtain ⟨r, ⟨hrmem, _⟩, hre⟩ := hp
      rw [← hre]
      exact hnov r hrmem
    have hkmem : rk ∈ keyword_results.filter (fun r => r.id ≠ "" ∧
        (((vector_results.filter (fun r => r.id ≠ "")).map
          (fun r => (r.id, vectorEntry r))).any (fun p => p.1 = r.id)) = false) :=
      List.mem_filter.mpr ⟨hrk, by
        simp only [decide_eq_true_eq]
        exact ⟨hidne, hany⟩⟩
    have heq : keywordEntry rk = ⟨rk, "keyword", 3/10⟩ := by
      unfold keywordEntry
      rw [hkr]
      rfl
    have hmm2 : (rk.id, keywordEntry rk) ∈
        (keyword_results.filter (fun r => r.id ≠ "" ∧
          (((vector_results.filter (fun r => r.id ≠ "")).map
            (fun r => (r.id, vectorEntry r))).any
              (fun p => p.1 = r.id)) = false)).map
          (fun r => (r.id, keywordEntry r)) :=
      List.mem_map_of_mem (fun r => (r.id, keywordEntry r)) hkmem
    rw [heq] at hmm2
    exact hmm2

/-- C3 (counterexample): a chunk found only by the keyword search does NOT
keep its overlap-derived score — `_perform_keyword_search` stores the
overlap `1/2` (with no stop-word removal: the spec's stop-word-filtered
formula gives `0` on the same input) as `similarity_score`, but the merge
reads the never-present `keyword_rank` key and assigns the constant
default `0.3`. -/
theorem C3_counterexample_keyword_score :
    matchScore ("the termination".data) kwDemoRow.content = 1/2 ∧
    specOverlapScore ("the termination".data) kwDemoRow.content = 0 ∧
    (combine_and_rerank_results []
        (perform_keyword_search ("the termination".data) [kwDemoRow])
        generalIntent 10).map
      (fun r => (r.source, r.combined_score, r.row.similarity_score)) =
      [("keyword", 3/10, some (1/2))] := by
  refine ⟨by with_unfolding_all decide, by with_unfolding_all decide,
    by with_unfolding_all decide⟩

/-- C3 witness: the amended theorem instantiated with one vector row and
two keyword rows sharing/not sharing its id. -/
theorem C3_hybrid_merge_scores_witness :
    ([vecDemoRow].map (fun r => r.id)).Nodup ∧
    ([kwDemoRow, kwOnlyDemoRow].map (fun r => r.id)).Nodup ∧
    (vecDemoRow.id,
      (⟨vecDemoRow, "hybrid", vecDemoRow.enhanced_score.getD (1/2) + 1/5⟩ :
        RankedResult)) ∈
      rerankKeywordPass (rerankVectorPass [vecDemoRow]) [kwDemoRow, kwOnlyDemoRow] ∧
    (kwOnlyDemoRow.id, (⟨kwOnlyDemoRow, "keyword", 3/10⟩ : RankedResult)) ∈
      rerankKeywordPass (rerankVectorPass [vecDemoRow]) [kwDemoRow, kwOnlyDemoRow] :=
  ⟨by decide, by decide,
    (C3_hybrid_merge_scores [vecDemoRow] [kwDemoRow, kwOnlyDemoRow]
        (by decide) (by decide)).1 vecDemoRow (List.mem_singleton.mpr rfl)
      kwDemoRow (List.mem_cons_self _ _) rfl (by decide),
    (C3_hybrid_merge_scores [vecDemoRow] [kwDemoRow, kwOnlyDemoRow]
        (by decide) (by decide)).2 kwOnlyDemoRow
      (List.mem_cons_of_mem _ (List.mem_singleton.mpr rfl)) (by decide) rfl
      (by intro rv hrv; rw [List.mem_singleton.mp hrv]; decide)⟩

end Spec2Proof
